import Mathlib

/-!
Verification development for the `owasp-tester` core scanner
(`packages/core/wvscanner_core.py` and the payload providers).

URLs are modelled as lists of characters (`List Char`).  The Python
standard-library functions `urllib.parse.urlsplit` / `urlunsplit`
(CPython 3.11) are embedded faithfully for the fields this code uses;
the IPv6-bracket and NFKC netloc validations, which raise `ValueError`
on exotic inputs, are not modelled (parsing is total here), and
`str.lower` is modelled as ASCII lowercasing.
-/

namespace WvScanner

/-- The five components returned by `urllib.parse.urlsplit`. -/
structure SplitResult where
  scheme : List Char
  netloc : List Char
  path : List Char
  query : List Char
  fragment : List Char
deriving DecidableEq, Repr

/-- Split a list at the first occurrence of `sep`; the separator is dropped.
Returns `none` when `sep` does not occur (models Python `find` + slicing). -/
def splitAtFirst (sep : Char) : List Char → Option (List Char × List Char)
  | [] => none
  | c :: cs =>
    if c = sep then some ([], cs)
    else (splitAtFirst sep cs).map (fun pr => (c :: pr.1, pr.2))

/-- CPython removes `\t`, `\r`, `\n` from the URL before parsing
(`_UNSAFE_URL_BYTES_TO_REMOVE`). -/
def removeTabNewline (l : List Char) : List Char :=
  l.filter (fun c => !(c = '\t' || c = '\r' || c = '\n'))

/-- CPython strips leading C0-control characters and spaces
(`_WHATWG_C0_CONTROL_OR_SPACE`, code points 0x00–0x20). -/
def lstripControlSpace (l : List Char) : List Char :=
  l.dropWhile (fun c => c.val ≤ 32)

/-- Characters allowed in a URL scheme (`urllib.parse.scheme_chars`). -/
def isSchemeChar (c : Char) : Bool :=
  c.isAlphanum || c = '+' || c = '-' || c = '.'

/-- ASCII lowercasing, the fragment of Python `str.lower` exercised here. -/
def pyLower (l : List Char) : List Char :=
  l.map Char.toLower

/-- Take characters of the netloc up to the first `/`, `?` or `#`
(models `urllib.parse._splitnetloc`); returns `(netloc, rest)`. -/
def takeNetloc : List Char → List Char × List Char
  | [] => ([], [])
  | c :: cs =>
    if c = '/' || c = '?' || c = '#' then ([], c :: cs)
    else
      let pr := takeNetloc cs
      (c :: pr.1, pr.2)

/-- The scheme-splitting stage of `urlsplit`: take everything before the
first `:` as the scheme when it is non-empty, starts with an ASCII letter
and consists of scheme characters; the scheme is lowercased. -/
def pyUrlsplitScheme (url : List Char) : List Char × List Char :=
  match splitAtFirst ':' url with
  | some (pre, post) =>
    match pre with
    | [] => ([], url)
    | c :: _ => if c.isAlpha && pre.all isSchemeChar then (pyLower pre, post) else ([], url)
  | none => ([], url)

/-- The netloc-splitting stage of `urlsplit`: consume `//` and the netloc up
to the next delimiter. -/
def pyUrlsplitNetloc (url : List Char) : List Char × List Char :=
  if url.take 2 = ['/', '/'] then takeNetloc (url.drop 2) else ([], url)

/-- The fragment- and query-splitting stages of `urlsplit`, returning
`(path, query, fragment)`: the fragment is split off at the first `#`
first, then the query at the first `?`. -/
def bodySplit (url : List Char) : List Char × List Char × List Char :=
  let fr :=
    match splitAtFirst '#' url with
    | some (a, b) => (a, b)
    | none => (url, [])
  let qu :=
    match splitAtFirst '?' fr.1 with
    | some (a, b) => (a, b)
    | none => (fr.1, [])
  (qu.1, qu.2, fr.2)

/-- Embedding of CPython 3.11 `urllib.parse.urlsplit` (with
`allow_fragments=True` and default scheme `""`): strip unsafe bytes, then
split scheme, netloc, fragment and query in that order. -/
def pyUrlsplit (urlIn : List Char) : SplitResult :=
  let url0 := removeTabNewline (lstripControlSpace urlIn)
  let sp := pyUrlsplitScheme url0
  let nl := pyUrlsplitNetloc sp.2
  let bs := bodySplit nl.2
  ⟨sp.1, nl.1, bs.1, bs.2.1, bs.2.2⟩

/-- Schemes for which `urlunsplit` inserts `//` even with an empty netloc
(`urllib.parse.uses_netloc`). -/
def uses_netloc : List (List Char) :=
  ["", "ftp", "http", "gopher", "nntp", "telnet", "imap", "wais", "file", "mms",
   "https", "shttp", "snews", "prospero", "rtsp", "rtsps", "rtspu", "rsync",
   "svn", "svn+ssh", "sftp", "nfs", "git", "git+ssh", "ws", "wss"].map String.data

/-- Embedding of CPython 3.11 `urllib.parse.urlunsplit`. -/
def pyUrlunsplit (r : SplitResult) : List Char :=
  let url := r.path
  let url :=
    if r.netloc ≠ [] ∨ (r.scheme ≠ [] ∧ r.scheme ∈ uses_netloc ∧ url.take 2 ≠ ['/', '/']) then
      let url := if url ≠ [] ∧ url.take 1 ≠ ['/'] then '/' :: url else url
      '/' :: '/' :: (r.netloc ++ url)
    else url
  let url := if r.scheme ≠ [] then r.scheme ++ ':' :: url else url
  let url := if r.query ≠ [] then url ++ '?' :: r.query else url
  if r.fragment ≠ [] then url ++ '#' :: r.fragment else url

/-! ## URL utilities of `wvscanner_core.py` -/

/-- `str.lstrip("/")`. -/
def lstripSlash (l : List Char) : List Char :=
  l.dropWhile (fun c => c = '/')

/-- Collapse every run of consecutive slashes to a single slash; this is the
fixed point computed by the source's `while "//" in norm: norm = norm.replace("//", "/")`
loop.  The boolean records whether the previous emitted character was a slash. -/
def collapseSlashAux : Bool → List Char → List Char
  | _, [] => []
  | prevSlash, c :: cs =>
    if c = '/' then
      if prevSlash then collapseSlashAux true cs
      else '/' :: collapseSlashAux true cs
    else c :: collapseSlashAux false cs

/-- `normalize_slash_path` from `wvscanner_core.py`. -/
def normalize_slash_path (path : List Char) : List Char :=
  if path = [] then ['/']
  else collapseSlashAux false ('/' :: lstripSlash path)

/-- `frag.startswith("/")`. -/
def startsWithSlash (l : List Char) : Bool :=
  l.take 1 = ['/']

/-- `canonicalize_spa` from `wvscanner_core.py`.  The second branch of the
source repeats `frag.startswith("/")` inside its guard and is therefore
unreachable; it is embedded anyway. -/
def canonicalize_spa (u start_origin start_path : List Char) : List Char :=
  let p := pyUrlsplit u
  let frag := p.fragment
  let path := normalize_slash_path p.path
  if p.scheme ++ (':' :: '/' :: '/' :: []) ++ p.netloc = start_origin then
    if startsWithSlash frag then
      let base_path := normalize_slash_path start_path
      pyUrlunsplit ⟨p.scheme, p.netloc, base_path, [], frag⟩
    else if u.contains '#' && !frag.isEmpty && startsWithSlash frag
        && !(path = ['/'] || path = normalize_slash_path start_path) then
      let base_path := normalize_slash_path start_path
      pyUrlunsplit ⟨p.scheme, p.netloc, base_path, [], frag⟩
    else
      pyUrlunsplit ⟨p.scheme, p.netloc, path, p.query, frag⟩
  else
    pyUrlunsplit ⟨p.scheme, p.netloc, path, p.query, frag⟩

/-- `canonical_key` from `wvscanner_core.py`. -/
def canonical_key (u : List Char) : List Char :=
  let p := pyUrlsplit u
  pyUrlunsplit ⟨p.scheme, p.netloc, normalize_slash_path p.path, p.query, p.fragment⟩

/-- `strip_hash` from `wvscanner_core.py`. -/
def strip_hash (u : List Char) : List Char :=
  let p := pyUrlsplit u
  pyUrlunsplit ⟨p.scheme, p.netloc, p.path, p.query, []⟩

/-- `norm_url` from `wvscanner_core.py`. -/
def norm_url (u : List Char) : List Char :=
  if (pyUrlsplit u).scheme = [] then "http://".data ++ u else u

/-- `same_host` from `wvscanner_core.py`. -/
def same_host (url_a url_b : List Char) : Bool :=
  pyLower (pyUrlsplit url_a).netloc = pyLower (pyUrlsplit url_b).netloc

/-- `host_in_allowed` from `wvscanner_core.py`. -/
def host_in_allowed (host : List Char) (allowed_hosts : List (List Char)) : Bool :=
  if allowed_hosts = [] then true
  else
    let h := pyLower host
    allowed_hosts.any (fun al =>
      let a := pyLower al
      h = a || (!a.isEmpty && ('.' :: a).isSuffixOf h))

/-- Python's substring test `needle in hay` (the empty string is a substring
of everything). -/
def isSubstringOf : List Char → List Char → Bool
  | n, [] => n.isEmpty
  | n, c :: cs => n.isPrefixOf (c :: cs) || isSubstringOf n cs

/-- `should_skip` from `wvscanner_core.py`. -/
def should_skip (href : List Char) (excludes_paths exclude_domains : List (List Char)) : Bool :=
  let host := pyLower (pyUrlsplit href).netloc
  if !host.isEmpty && exclude_domains.any (fun d => host = d || ('.' :: d).isSuffixOf host) then
    true
  else
    let href_l := pyLower href
    excludes_paths.any (fun e => isSubstringOf e href_l)

/-! ## Crawl frontier / traversal engine (`crawl` in `wvscanner_core.py`)

The network, the HTML/DOM parsing and the renderer are abstracted behind an
oracle: for a GET target it yields either `none` (a transport exception in
`session.get`) or the effective URL after redirects together with the
aggregated link-candidate list and the parsed per-page form list that the
loop body would compute for that page.  `bodyFault` models an exception
raised in the loop body after the page was appended (e.g. by the HTML
parser), which no handler in `crawl` catches.  The traversal logic itself —
canonicalization, the visited-key set, redirect-host policy, host filters,
link filtering and enqueueing, the page cap, and the renderer teardown — is
translated statement by statement.  A ghost `log` records every GET issued
by the loop: the canonical key and frontier depth at fetch time, and whether
the iteration marked that key visited. -/

/-- A form as recorded by the crawler (`{action, method, inputs}`). -/
structure PForm where
  action : List Char
  method : List Char
  inputs : List (List Char × List Char)
deriving DecidableEq, Repr

/-- Response oracle for one GET target. -/
structure Fetched where
  effectiveUrl : List Char
  candidates : List (List Char)
  pageForms : List PForm
  bodyFault : Bool

/-- The network/page oracle: `none` models a transport exception. -/
def Network := List Char → Option Fetched

/-- The keyword arguments of `crawl`. -/
structure CrawlPolicy where
  max_depth : Int
  same_host_only : Bool
  excludes_paths : List (List Char)
  exclude_domains : List (List Char)
  follow_redirect_hosts : Bool
  allowed_hosts : List (List Char)
  max_pages : Int
deriving Repr

/-- Ghost record of one `session.get` issued by the traversal loop. -/
structure FetchEvent where
  key : List Char
  depth : Nat
  settled : Bool
deriving DecidableEq, Repr

/-- Mutable state of the traversal loop. -/
structure CrawlState where
  queue : List (List Char × Nat)
  visited : List (List Char)
  pages : List (List Char)
  forms : List (List Char × List PForm)
  log : List FetchEvent

/-- Python `dict` assignment `forms[url] = page_forms`: replace in place when
the key exists, append otherwise. -/
def dictInsert (d : List (List Char × List PForm)) (k : List Char) (v : List PForm) :
    List (List Char × List PForm) :=
  if d.any (fun kv => kv.1 == k) then
    d.map (fun kv => if kv.1 == k then (k, v) else kv)
  else d ++ [(k, v)]

/-- Accumulator for the per-page link loop: the page-local dedup set
(`seen_local`) and the frontier queue. -/
structure EnqState where
  seenLocal : List (List Char)
  queue : List (List Char × Nat)

/-- The link aggregation loop at the bottom of `crawl`'s body: canonicalize
each candidate, skip page-local and visited duplicates, filter, and enqueue
at `depth + 1`.  The source calls `should_skip(cand, [], [])` with empty
lists — not with the configured exclusion lists — and that call is embedded
exactly as written. -/
def enqueueLinks (pol : CrawlPolicy) (startUrl startOrigin startPath : List Char)
    (visited : List (List Char)) (depth : Nat) :
    List (List Char) → EnqState → EnqState
  | [], st => st
  | href :: rest, st =>
    if href.isEmpty then
      enqueueLinks pol startUrl startOrigin startPath visited depth rest st
    else
      let cand := canonicalize_spa href startOrigin startPath
      let ckey := canonical_key cand
      if ckey ∈ st.seenLocal ∨ ckey ∈ visited then
        enqueueLinks pol startUrl startOrigin startPath visited depth rest st
      else
        let st1 : EnqState := ⟨ckey :: st.seenLocal, st.queue⟩
        if should_skip cand [] [] then
          enqueueLinks pol startUrl startOrigin startPath visited depth rest st1
        else
          let link_host := pyLower (pyUrlsplit cand).netloc
          if ¬ host_in_allowed link_host pol.allowed_hosts then
            enqueueLinks pol startUrl startOrigin startPath visited depth rest st1
          else if pol.same_host_only ∧ ¬ same_host startUrl cand then
            enqueueLinks pol startUrl startOrigin startPath visited depth rest st1
          else
            enqueueLinks pol startUrl startOrigin startPath visited depth rest
              ⟨st1.seenLocal, st1.queue ++ [(cand, depth + 1)]⟩

/-- How the traversal loop ended. -/
inductive LoopExit
  | exhausted
  | capped
  | fault
  | fuelOut
deriving DecidableEq, Repr

/-- The body of the `while not q.empty()` loop of `crawl` for one dequeued
frontier item `(url0, depth)`; `st.queue` already holds the remaining
frontier.  Returns the updated state and `some exit` when the loop stops
here (`break` on the page cap, or an exception escaping the body). -/
def crawlStep (net : Network) (pol : CrawlPolicy)
    (startUrl startOrigin startPath startHost : List Char)
    (url0 : List Char) (depth : Nat) (st : CrawlState) : CrawlState × Option LoopExit :=
  let url := canonicalize_spa url0 startOrigin startPath
  let key := canonical_key url
  if key ∈ st.visited ∨ (depth : Int) > pol.max_depth then
    (st, none)
  else
    match net (strip_hash url) with
    | none =>
      ({ st with log := st.log ++ [⟨key, depth, false⟩] }, none)
    | some resp =>
      let requested_host := pyLower (pyUrlsplit url).netloc
      let effective_host := pyLower (pyUrlsplit resp.effectiveUrl).netloc
      if effective_host ≠ requested_host ∧ ¬ pol.follow_redirect_hosts then
        ({ st with visited := key :: st.visited,
                   log := st.log ++ [⟨key, depth, true⟩] }, none)
      else
        let url2 := if effective_host ≠ requested_host then
            canonicalize_spa resp.effectiveUrl startOrigin startPath
          else url
        let key2 := if effective_host ≠ requested_host then canonical_key url2 else key
        let this_host := pyLower (pyUrlsplit url2).netloc
        if (pol.same_host_only ∧ this_host ≠ startHost)
            ∨ ¬ host_in_allowed this_host pol.allowed_hosts then
          let visited2 := key2 :: st.visited
          ({ st with visited := visited2,
                     log := st.log ++ [⟨key, depth, decide (key ∈ visited2)⟩] }, none)
        else
          let visited2 := key2 :: st.visited
          let pages2 := st.pages ++ [url2]
          let log2 := st.log ++ [⟨key, depth, decide (key ∈ visited2)⟩]
          if pol.max_pages ≠ 0 ∧ (pages2.length : Int) ≥ pol.max_pages then
            ({ st with visited := visited2, pages := pages2, log := log2 },
              some LoopExit.capped)
          else if resp.bodyFault then
            ({ st with visited := visited2, pages := pages2, log := log2 },
              some LoopExit.fault)
          else
            let forms2 := if resp.pageForms = [] then st.forms
              else dictInsert st.forms url2 resp.pageForms
            let enq := enqueueLinks pol startUrl startOrigin startPath visited2 depth
              resp.candidates ⟨[], st.queue⟩
            (⟨enq.queue, visited2, pages2, forms2, log2⟩, none)

/-- One-iteration-at-a-time embedding of the `while not q.empty()` loop of
`crawl`, with a fuel bound (`fuelOut` is a model artifact for runs longer
than the fuel). -/
def crawlLoop (net : Network) (pol : CrawlPolicy)
    (startUrl startOrigin startPath startHost : List Char) :
    Nat → CrawlState → CrawlState × LoopExit
  | 0, st => (st, LoopExit.fuelOut)
  | Nat.succ fuel, st =>
    match st.queue with
    | [] => (st, LoopExit.exhausted)
    | (url0, depth) :: qrest =>
      let pr := crawlStep net pol startUrl startOrigin startPath startHost url0 depth
        { st with queue := qrest }
      match pr.2 with
      | some e => (pr.1, e)
      | none => crawlLoop net pol startUrl startOrigin startPath startHost fuel pr.1

/-- Result of `crawl`, with ghost observability fields: the fetch log, how
the loop exited, whether a renderer context was opened, and whether its
teardown (`js_browser_ctx.__exit__`) was reached.  In the source the
teardown line sits after the loop with no `try/finally`, so an exception
escaping the loop body skips it. -/
structure CrawlResult where
  pages : List (List Char)
  forms : List (List Char × List PForm)
  log : List FetchEvent
  exit : LoopExit
  rendererOpened : Bool
  teardownRan : Bool

/-- `start_origin` as computed at the top of `crawl`. -/
def start_origin_of (start_url : List Char) : List Char :=
  (pyUrlsplit start_url).scheme ++ (':' :: '/' :: '/' :: []) ++ (pyUrlsplit start_url).netloc

/-- `start_path` as computed at the top of `crawl`
(`normalize_slash_path(start_split.path or "/")`). -/
def start_path_of (start_url : List Char) : List Char :=
  normalize_slash_path
    (if (pyUrlsplit start_url).path = [] then "/".data else (pyUrlsplit start_url).path)

/-- `start_host` as computed at the top of `crawl`. -/
def start_host_of (start_url : List Char) : List Char :=
  pyLower (pyUrlsplit start_url).netloc

/-- The traversal loop of `crawl` run from the seeded frontier. -/
def crawlRun (net : Network) (pol : CrawlPolicy) (start_url_raw : List Char)
    (fuel : Nat) : CrawlState × LoopExit :=
  let start_url := norm_url start_url_raw
  crawlLoop net pol start_url (start_origin_of start_url) (start_path_of start_url)
    (start_host_of start_url) fuel ⟨[(start_url, 0)], [], [], [], []⟩

/-- Embedding of `crawl`: seed normalization, the traversal loop, and the
renderer lifecycle.  `useJs` models `js_cfg.enabled`; `rendererInitOk`
models whether `js_context(...).__enter__()` succeeded.  The teardown line
follows the loop, so it runs exactly when the loop finished without a fault
(and, in this fuel model, without running out of fuel). -/
def crawl (net : Network) (pol : CrawlPolicy) (start_url_raw : List Char)
    (useJs rendererInitOk : Bool) (fuel : Nat) : CrawlResult :=
  let opened := useJs && rendererInitOk
  let pr := crawlRun net pol start_url_raw fuel
  ⟨pr.1.pages, pr.1.forms, pr.1.log, pr.2, opened,
    match pr.2 with
    | LoopExit.fault => false
    | LoopExit.fuelOut => false
    | _ => opened⟩

/-! ## Query-string re-encoding (`urllib.parse.parse_qsl` / `urlencode`)

`unquote` is modelled byte-per-character (faithful for ASCII; multi-byte
UTF-8 percent sequences decode to one character per byte here). -/

/-- Hexadecimal digit value, if any. -/
def hexVal (c : Char) : Option Nat :=
  if '0' ≤ c ∧ c ≤ '9' then some (c.toNat - '0'.toNat)
  else if 'a' ≤ c ∧ c ≤ 'f' then some (c.toNat - 'a'.toNat + 10)
  else if 'A' ≤ c ∧ c ≤ 'F' then some (c.toNat - 'A'.toNat + 10)
  else none

/-- `urllib.parse.unquote`: decode `%XX` escapes, leaving malformed escapes
as literal text. -/
def pyUnquote : List Char → List Char
  | [] => []
  | '%' :: a :: b :: rest =>
    match hexVal a, hexVal b with
    | some x, some y => Char.ofNat (16 * x + y) :: pyUnquote rest
    | _, _ => '%' :: pyUnquote (a :: b :: rest)
  | c :: rest => c :: pyUnquote rest

/-- `s.replace('+', ' ')` as applied by `parse_qsl` before unquoting. -/
def plusToSpace (l : List Char) : List Char :=
  l.map (fun c => if c = '+' then ' ' else c)

/-- Split on a separator character; mirrors Python `str.split(sep)`
(the empty string yields one empty piece). -/
def splitOnChar (sep : Char) : List Char → List (List Char)
  | [] => [[]]
  | c :: cs =>
    let r := splitOnChar sep cs
    if c = sep then [] :: r
    else
      match r with
      | [] => [[c]]
      | h :: t => (c :: h) :: t

/-- `urllib.parse.parse_qsl(query, keep_blank_values=True)`. -/
def parse_qsl (qs : List Char) : List (List Char × List Char) :=
  (splitOnChar '&' qs).filterMap fun nv =>
    if nv = [] then none
    else
      match splitAtFirst '=' nv with
      | some (n, v) => some (pyUnquote (plusToSpace n), pyUnquote (plusToSpace v))
      | none => some (pyUnquote (plusToSpace nv), [])

/-- Python `dict` assignment on an insertion-ordered association list:
an existing key keeps its position and gets the new value, a new key is
appended. -/
def dictSet (d : List (List Char × List Char)) (k v : List Char) :
    List (List Char × List Char) :=
  if d.any (fun kv => kv.1 == k) then
    d.map (fun kv => if kv.1 == k then (k, v) else kv)
  else d ++ [(k, v)]

/-- `dict(pairs)`: later values win, first-insertion order. -/
def dictOfPairs (ps : List (List Char × List Char)) : List (List Char × List Char) :=
  ps.foldl (fun d kv => dictSet d kv.1 kv.2) []

/-- UTF-8 bytes of one character. -/
def utf8Bytes (c : Char) : List Nat :=
  let n := c.toNat
  if n < 0x80 then [n]
  else if n < 0x800 then [0xC0 + n / 0x40, 0x80 + n % 0x40]
  else if n < 0x10000 then
    [0xE0 + n / 0x1000, 0x80 + (n / 0x40) % 0x40, 0x80 + n % 0x40]
  else
    [0xF0 + n / 0x40000, 0x80 + (n / 0x1000) % 0x40, 0x80 + (n / 0x40) % 0x40, 0x80 + n % 0x40]

/-- Upper-case hexadecimal digit. -/
def hexDigitUpper (n : Nat) : Char :=
  if n < 10 then Char.ofNat ('0'.toNat + n) else Char.ofNat ('A'.toNat + n - 10)

/-- `urllib.parse.quote_plus(s, safe='')`: keep `_ALWAYS_SAFE` characters,
turn spaces into `+`, percent-encode everything else byte-wise. -/
def quote_plus (s : List Char) : List Char :=
  (s.map fun c =>
    if c = ' ' then ['+']
    else if c.isAlphanum || c = '_' || c = '.' || c = '-' || c = '~' then [c]
    else (utf8Bytes c).map (fun b => ['%', hexDigitUpper (b / 16), hexDigitUpper (b % 16)]) |>.flatten).flatten

/-- `urllib.parse.urlencode` over an insertion-ordered dict. -/
def urlencode (d : List (List Char × List Char)) : List Char :=
  List.intercalate ['&'] (d.map fun kv => quote_plus kv.1 ++ '=' :: quote_plus kv.2)

/-- The URL-with-substituted-parameter built identically by
`test_reflected_xss`, `test_dom_xss_with_js` and `test_sqli_basic`:
re-parse the query, overwrite `param`, re-encode. -/
def buildParamUrl (url param payload : List Char) : List Char :=
  let parsed := pyUrlsplit url
  let qs := dictSet (dictOfPairs (parse_qsl parsed.query)) param payload
  pyUrlunsplit ⟨parsed.scheme, parsed.netloc, parsed.path, urlencode qs, parsed.fragment⟩

/-! ## Detection modules -/

/-- A `Finding` dataclass value. -/
structure Finding where
  severity : List Char
  category : List Char
  url : List Char
  param : List Char
  evidence : List Char
deriving DecidableEq, Repr

/-- The fixed database error signatures of `test_sqli_basic`. -/
def error_signatures : List (List Char) :=
  ["you have an error in your sql syntax", "warning: mysql", "unclosed quotation mark",
   "pg_query():", "mysql_fetch_array()", "sqlstate[", "sqlite_error"].map String.data

/-- `tested >= cap` (only when a cap was provided). -/
def capReached (cap : Option Int) (tested : Nat) : Bool :=
  match cap with
  | some c => (tested : Int) ≥ c
  | none => false

/-- The per-payload loop of `test_sqli_basic`.  The body oracle maps a GET
target to the response text (`none` models a transport exception, which the
source catches and skips). -/
def sqliLoop (net : List Char → Option (List Char)) (url param baseline : List Char)
    (cap : Option Int) : List (List Char) → Nat → Option Finding
  | [], _ => none
  | p :: rest, tested =>
    if capReached cap tested then none
    else
      let url_mod := buildParamUrl url param p
      match net (strip_hash url_mod) with
      | none => sqliLoop net url param baseline cap rest (tested + 1)
      | some t =>
        let body := pyLower (t.take 5000)
        if error_signatures.any (fun sig => isSubstringOf sig body) then
          some ⟨"HIGH".data, "SQLi".data, url_mod, param,
            "Error-based signature with payload: ".data ++ p⟩
        else if baseline ≠ [] ∧ ((t.length : Int) - (baseline.length : Int)).natAbs > 500 then
          some ⟨"MEDIUM".data, "SQLi".data, url_mod, param,
            "Response length changed with payload: ".data ++ p⟩
        else sqliLoop net url param baseline cap rest (tested + 1)

/-- `test_sqli_basic` from `wvscanner_core.py`: fetch the baseline once
(empty on failure, truncated to 5000 characters), then probe each payload. -/
def test_sqli_basic (net : List Char → Option (List Char)) (url param : List Char)
    (payloads : List (List Char)) (cap : Option Int) : Option Finding :=
  let baseline :=
    match net (strip_hash url) with
    | some t => t.take 5000
    | none => []
  sqliLoop net url param baseline cap payloads 0

/-- Classification of one probe response, written from the claim's wording:
HIGH iff the lower-cased truncated body contains a database error signature;
otherwise MEDIUM iff the baseline is non-empty and the full response length
differs from the baseline length by more than 500; otherwise no finding. -/
inductive SqliClass
  | high
  | medium
  | nofind
deriving DecidableEq, Repr

/-- Claim-side classification of a single probed payload's response. -/
def sqliSpecClassify (baseline : List Char) (resp : Option (List Char)) : SqliClass :=
  match resp with
  | none => SqliClass.nofind
  | some t =>
    if error_signatures.any (fun sig => isSubstringOf sig (pyLower (t.take 5000))) then
      SqliClass.high
    else if baseline ≠ [] ∧ ((t.length : Int) - (baseline.length : Int)).natAbs > 500 then
      SqliClass.medium
    else SqliClass.nofind

/-- The payloads actually probed: all of them, or the first `cap` when a cap
is set (a non-positive cap probes none). -/
def probedPrefix (cap : Option Int) (payloads : List (List Char)) : List (List Char) :=
  match cap with
  | none => payloads
  | some c => payloads.take c.toNat

/-- Claim-side probe of one payload: classify its response and emit the
corresponding finding, if any. -/
def sqliSpecProbe (net : List Char → Option (List Char)) (url param baseline : List Char)
    (p : List Char) : Option Finding :=
  let url_mod := buildParamUrl url param p
  match sqliSpecClassify baseline (net (strip_hash url_mod)) with
  | SqliClass.high => some ⟨"HIGH".data, "SQLi".data, url_mod, param,
      "Error-based signature with payload: ".data ++ p⟩
  | SqliClass.medium => some ⟨"MEDIUM".data, "SQLi".data, url_mod, param,
      "Response length changed with payload: ".data ++ p⟩
  | SqliClass.nofind => none

/-- Claim-side SQLi outcome: the first qualifying probed payload wins. -/
def sqliSpecFinding (net : List Char → Option (List Char)) (url param : List Char)
    (payloads : List (List Char)) (cap : Option Int) : Option Finding :=
  let baseline :=
    match net (strip_hash url) with
    | some t => t.take 5000
    | none => []
  (probedPrefix cap payloads).findSome? (sqliSpecProbe net url param baseline)

/-! ## Orchestrator pieces (`run_scan`) -/

/-- First-seen-order deduplication with an accumulator of already-seen
elements (the `seen = set(); dedup = []` idiom of the static provider). -/
def dedupFirstSeenAux {α : Type} [DecidableEq α] (seen : List α) : List α → List α
  | [] => []
  | x :: xs =>
    if x ∈ seen then dedupFirstSeenAux seen xs
    else x :: dedupFirstSeenAux (x :: seen) xs

/-- First-seen-order deduplication. -/
def dedupFirstSeen {α : Type} [DecidableEq α] (l : List α) : List α :=
  dedupFirstSeenAux [] l

/-- Lexicographic string comparison by code point (Python `<=` on `str`). -/
def pyStringLe : List Char → List Char → Bool
  | [], _ => true
  | _ :: _, [] => false
  | x :: xs, y :: ys => if x = y then pyStringLe xs ys else decide (x < y)

/-- The header-check targets of `run_scan`:
`sorted(set(strip_hash(u) for u in pages))` — one GET and header check per
element.  Note `strip_hash` drops only the fragment and keeps the query. -/
def header_check_targets (pages : List (List Char)) : List (List Char) :=
  List.insertionSort (fun a b => pyStringLe a b = true) (dedupFirstSeen (pages.map strip_hash))

/-- The claim's notion of base URL: both query and fragment stripped. -/
def stripQueryAndFragment (u : List Char) : List Char :=
  let p := pyUrlsplit u
  pyUrlunsplit ⟨p.scheme, p.netloc, p.path, [], []⟩

/-- The configuration bits consulted by `run_scan` to fix the crawl's
same-host restriction: `scanner.same_host_only` (default `True`) and
`safety.allow_global_scan_flag` (default `False`); `none` models an absent
key. -/
structure HostRestrictionCfg where
  same_host_only : Option Bool
  allow_global_scan_flag : Option Bool
deriving DecidableEq, Repr

/-- Lines 504–507 of `wvscanner_core.py`: the `same_host_only` value that
`run_scan` passes to `crawl`. -/
def effective_same_host_only (cfg : HostRestrictionCfg) : Bool :=
  let s := cfg.same_host_only.getD true
  if ¬s ∧ ¬(cfg.allow_global_scan_flag.getD false) then true else s

/-! ## Payload providers -/

/-- The `payloads` configuration group. -/
structure PayloadsCfg where
  xss_reflected : List (List Char)
  xss_files : List (List Char)
  sqli_basic : List (List Char)
  sqli_files : List (List Char)
  max_test_payloads_per_param : Option Int
deriving Repr

/-- A file system oracle: file name to lines, `none` when the path does not
exist. -/
def FileSys := List Char → Option (List (List Char))

/-- Python whitespace for `str.strip()`. -/
def isPySpace (c : Char) : Bool :=
  c = ' ' || (9 ≤ c.val && c.val ≤ 13)

/-- `line.strip()`. -/
def pyStrip (l : List Char) : List Char :=
  ((l.dropWhile isPySpace).reverse.dropWhile isPySpace).reverse

/-- The raw payload lines collected by `StaticPayloadProvider._read_files`
before deduplication: existing files only, stripped lines, blank lines and
`#`-comments dropped. -/
def rawFileLines (fs : FileSys) (file_list : List (List Char)) : List (List Char) :=
  (file_list.map fun f =>
    match fs f with
    | none => []
    | some lines => lines.filterMap fun line =>
        let s := pyStrip line
        if s ≠ [] ∧ s.take 1 ≠ ['#'] then some s else none).flatten

/-- `StaticPayloadProvider._read_files`: collected lines, deduplicated in
first-seen order. -/
def read_files (fs : FileSys) (file_list : List (List Char)) : List (List Char) :=
  dedupFirstSeen (rawFileLines fs file_list)

/-- `StaticPayloadProvider.get_xss_payloads`: the inline list concatenated
with the (deduplicated) file lines. -/
def static_get_xss_payloads (cfg : PayloadsCfg) (fs : FileSys) : List (List Char) :=
  cfg.xss_reflected ++ read_files fs cfg.xss_files

/-- `StaticPayloadProvider.get_sqli_payloads`. -/
def static_get_sqli_payloads (cfg : PayloadsCfg) (fs : FileSys) : List (List Char) :=
  cfg.sqli_basic ++ read_files fs cfg.sqli_files

/-- `AIPayloadProvider.get_xss_payloads` / `get_sqli_payloads`: the stub
returns the empty list whether or not `ai.enabled` is set. -/
def ai_get_payloads (aiEnabled : Bool) : List (List Char) :=
  if ¬aiEnabled then [] else []

/-- `run_scan` lines 498–499: the cap is used only when it is a positive
integer. -/
def per_param_cap (cfg : PayloadsCfg) : Option Int :=
  match cfg.max_test_payloads_per_param with
  | some c => if c > 0 then some c else none
  | none => none

/-- `run_scan` lines 495–502: merge static and AI payloads per class, then
truncate once to the cap. -/
def scan_xss_payloads (cfg : PayloadsCfg) (fs : FileSys) (aiEnabled : Bool) : List (List Char) :=
  let merged := static_get_xss_payloads cfg fs ++ ai_get_payloads aiEnabled
  match per_param_cap cfg with
  | some c => merged.take c.toNat
  | none => merged

/-- `run_scan` lines 496–502 for the SQLi class. -/
def scan_sqli_payloads (cfg : PayloadsCfg) (fs : FileSys) (aiEnabled : Bool) : List (List Char) :=
  let merged := static_get_sqli_payloads cfg fs ++ ai_get_payloads aiEnabled
  match per_param_cap cfg with
  | some c => merged.take c.toNat
  | none => merged

/-- `sum(len(v) for v in forms.values())` in `run_scan`. -/
def discovered_forms (forms : List (List Char × List PForm)) : Nat :=
  (forms.map fun kv => kv.2.length).sum

/-! ## Helper lemmas -/

/-! ## Predicates and concrete instances used by the theorems below -/

/-- A plain policy: depth 5, same-host-only, no exclusions, no redirects
across hosts, no allow list, page cap 100. -/
def polPlain : CrawlPolicy := ⟨5, true, [], [], false, [], 100⟩

/-- A network where every GET raises a transport error. -/
def netDead : Network := fun _ => none

/-- A crawl policy with the path exclusion `/admin` configured. -/
def c2pol : CrawlPolicy := ⟨5, true, ["/admin".data], [], false, [], 100⟩

/-- Network for C2: the seed page links to an URL under the excluded path. -/
def c2net : Network := fun u =>
  if u = "http://h/".data then
    some ⟨"http://h/".data, ["http://h/admin/x".data], [], false⟩
  else if u = "http://h/admin/x".data then
    some ⟨"http://h/admin/x".data, [], [], false⟩
  else none

/-- Payload configuration with a duplicated inline XSS payload. -/
def c8cfg : PayloadsCfg := ⟨["A".data, "A".data], [], [], [], none⟩

/-- A file system with no files. -/
def fsEmpty : FileSys := fun _ => none

/-- Network for C9: the seed page's processing raises in the loop body
(after the page is recorded), e.g. inside the HTML parser. -/
def c9net : Network := fun u =>
  if u = "http://h/".data then some ⟨"http://h/".data, [], [], true⟩ else none

/-- The loop invariant: settled fetch-log entries have their key in the
visited set; a settled entry's key never reappears later in the log; logged
frontier depths respect the depth bound; and the forms map binds only
crawled pages to non-empty form lists. -/
def crawlInv (pol : CrawlPolicy) (st : CrawlState) : Prop :=
  (∀ e ∈ st.log, e.settled = true → e.key ∈ st.visited) ∧
  st.log.Pairwise (fun a b => a.settled = true → a.key ≠ b.key) ∧
  (∀ e ∈ st.log, (e.depth : Int) ≤ pol.max_depth) ∧
  (∀ kv ∈ st.forms, kv.1 ∈ st.pages ∧ kv.2 ≠ [])

/-- Network for C1: the seed links to `a` and `b`; fetching `a` raises a
transport error; page `b` links to `a` again, which is then fetched a
second time because a failed fetch does not mark its key visited. -/
def c1net : Network := fun u =>
  if u = "http://h/".data then
    some ⟨"http://h/".data, ["http://h/a".data, "http://h/b".data], [], false⟩
  else if u = "http://h/b".data then
    some ⟨"http://h/b".data, ["http://h/a".data], [], false⟩
  else none

/-- Policy with page cap 1 for the C3 witness. -/
def c3pol : CrawlPolicy := ⟨5, true, [], [], false, [], 1⟩

/-- A recorded form for the C10 witness scenario. -/
def c10fm : PForm := ⟨"http://h/s".data, "get".data, [("q".data, "".data)]⟩

/-- Network for the C10 witness: the seed page carries one form. -/
def c10net : Network := fun u =>
  if u = "http://h/".data then some ⟨"http://h/".data, [], [c10fm], false⟩ else none

/-- The unmodified page URL of the C4 concrete scenarios. -/
def c4url : List Char := "http://h/s?q=1".data

/-- The parameter-substituted URL those scenarios are probed at. -/
def c4mod : List Char := "http://h/s?q=abc".data

/-- Scenario: the probe response carries a database error signature. -/
def c4netHigh : List Char → Option (List Char) := fun u =>
  if u = c4url then some "hello".data
  else if u = c4mod then some "You have an error in your SQL syntax near x".data
  else none

/-- Scenario: the probe response is 600 characters longer than the baseline
and carries no error text. -/
def c4netMed : List Char → Option (List Char) := fun u =>
  if u = c4url then some (List.replicate 100 'a')
  else if u = c4mod then some (List.replicate 700 'b')
  else none

/-- Scenario: the probe response has the baseline's length and no error
text. -/
def c4netNone : List Char → Option (List Char) := fun u =>
  if u = c4url then some (List.replicate 300 'a')
  else if u = c4mod then some (List.replicate 300 'c')
  else none

/-- A character that survives `_UNSAFE_URL_BYTES_TO_REMOVE` (not tab, CR or
LF), phrased on code points. -/
def CleanChar (c : Char) : Prop :=
  c.toNat ≠ 9 ∧ c.toNat ≠ 13 ∧ c.toNat ≠ 10

/-- A string of clean characters. -/
def CleanStr (l : List Char) : Prop :=
  ∀ c ∈ l, CleanChar c

/-- Specification of a scheme produced by `pyUrlsplitScheme`: empty, or
non-empty with an alphabetic head, scheme characters throughout, and
already lowercase. -/
def SchemeSpec (s : List Char) : Prop :=
  s = [] ∨ ((∃ c0 t0, s = c0 :: t0 ∧ c0.isAlpha = true) ∧
    ∀ c ∈ s, isSchemeChar c = true ∧ c.toLower = c)

/-- Netlocs contain no `/`, `?` or `#`. -/
def NoDelim (n : List Char) : Prop :=
  ∀ c ∈ n, c ≠ '/' ∧ c ≠ '?' ∧ c ≠ '#'

/-- The optional query/fragment tail emitted by `pyUrlunsplit`. -/
def optPart (sep : Char) (x : List Char) : List Char :=
  if x = [] then [] else sep :: x

/-- No two adjacent slashes. -/
def NoDS (l : List Char) : Prop :=
  l.Chain' (fun a b => ¬(a = '/' ∧ b = '/'))

theorem dedupAux_mem {α : Type} [DecidableEq α] (x : α) :
    ∀ (l seen : List α), x ∈ dedupFirstSeenAux seen l ↔ x ∈ l ∧ x ∉ seen := by
  intro l
  induction l with
  | nil => intro seen; simp [dedupFirstSeenAux]
  | cons y ys ih =>
    intro seen
    by_cases hy : y ∈ seen
    · simp only [dedupFirstSeenAux, if_pos hy, ih, List.mem_cons]
      constructor
      · rintro ⟨hx, hns⟩; exact ⟨Or.inr hx, hns⟩
      · rintro ⟨hx | hx, hns⟩
        · exact absurd (hx ▸ hy) hns
        · exact ⟨hx, hns⟩
    · simp only [dedupFirstSeenAux, if_neg hy, List.mem_cons, ih]
      constructor
      · rintro (rfl | ⟨hx, hns⟩)
        · exact ⟨Or.inl rfl, hy⟩
        · exact ⟨Or.inr hx, fun hc => hns (Or.inr hc)⟩
      · rintro ⟨rfl | hx, hns⟩
        · exact Or.inl rfl
        · by_cases hxy : x = y
          · exact Or.inl hxy
          · exact Or.inr ⟨hx, fun hc => hc.elim hxy hns⟩

theorem dedupAux_nodup {α : Type} [DecidableEq α] :
    ∀ (l seen : List α), (dedupFirstSeenAux seen l).Nodup := by
  intro l
  induction l with
  | nil => intro seen; simp [dedupFirstSeenAux]
  | cons y ys ih =>
    intro seen
    by_cases hy : y ∈ seen
    · simpa [dedupFirstSeenAux, if_pos hy] using ih seen
    · simp only [dedupFirstSeenAux, if_neg hy, List.nodup_cons]
      refine ⟨fun hc => ?_, ih (y :: seen)⟩
      exact ((dedupAux_mem y ys (y :: seen)).mp hc).2 (List.mem_cons_self y seen)

theorem dedupAux_sublist {α : Type} [DecidableEq α] :
    ∀ (l seen : List α), (dedupFirstSeenAux seen l).Sublist l := by
  intro l
  induction l with
  | nil => intro seen; simp [dedupFirstSeenAux]
  | cons y ys ih =>
    intro seen
    by_cases hy : y ∈ seen
    · simpa [dedupFirstSeenAux, if_pos hy] using (ih seen).cons y
    · simpa [dedupFirstSeenAux, if_neg hy] using (ih (y :: seen)).cons₂ y

theorem dedupFirstSeen_mem {α : Type} [DecidableEq α] (x : α) (l : List α) :
    x ∈ dedupFirstSeen l ↔ x ∈ l := by
  simp [dedupFirstSeen, dedupAux_mem]

theorem dedupFirstSeen_nodup {α : Type} [DecidableEq α] (l : List α) :
    (dedupFirstSeen l).Nodup :=
  dedupAux_nodup l []

theorem dedupFirstSeen_sublist {α : Type} [DecidableEq α] (l : List α) :
    (dedupFirstSeen l).Sublist l :=
  dedupAux_sublist l []

/-! ## Shared concrete scenario data -/

/-! ## C2 -/

/-- C2: the configured exclusion filters are NOT applied to link candidates:
`crawl` calls `should_skip(cand, [], [])` with empty lists, so a candidate
that the configured `/admin` path exclusion matches (as `should_skip` itself
confirms) is nevertheless enqueued and fetched, and even becomes a crawled
page.  This evaluates the embedded code at the failing input of the claim. -/
theorem c2_theorem :
    should_skip "http://h/admin/x".data ["/admin".data] [] = true ∧
    (crawl c2net c2pol "http://h/".data false false 10).pages
      = ["http://h/".data, "http://h/admin/x".data] ∧
    (crawl c2net c2pol "http://h/".data false false 10).log.map (fun e => e.key)
      = ["http://h/".data, "http://h/admin/x".data] := by
  refine ⟨by decide, by decide, by decide⟩

/-! ## C5 -/

/-- C5 counterexample: two crawled pages that differ only in their query
string produce two distinct header-check targets — not the single check the
claim asserts — even though the claim's base URL (query and fragment
stripped) is the same for both. -/
theorem c5_counterexample :
    (header_check_targets ["http://h/p?a=1".data, "http://h/p?a=2".data]).length = 2 ∧
    stripQueryAndFragment "http://h/p?a=1".data
      = stripQueryAndFragment "http://h/p?a=2".data := by
  refine ⟨by decide, by decide⟩

/-- C5 (amended): the header check is performed exactly once per unique
fragment-stripped URL (`strip_hash` keeps the query): the target list has no
duplicates and contains exactly the `strip_hash` images of the crawled
pages; pages differing only in fragment therefore share one check, while
pages differing in query are checked separately. -/
theorem c5_theorem (pages : List (List Char)) :
    (header_check_targets pages).Nodup ∧
    ∀ u, u ∈ header_check_targets pages ↔ ∃ p, p ∈ pages ∧ strip_hash p = u := by
  have hperm := List.perm_insertionSort (fun a b => pyStringLe a b = true)
    (dedupFirstSeen (pages.map strip_hash))
  constructor
  · exact hperm.symm.nodup (dedupFirstSeen_nodup _)
  · intro u
    rw [header_check_targets, hperm.mem_iff, dedupFirstSeen_mem]
    simp [List.mem_map]

/-! ## C6 -/

/-- C6: the crawl's `same_host_only` flag computed by `run_scan` is `false`
iff the configuration both sets `scanner.same_host_only` to `false` and
affirmatively sets `safety.allow_global_scan_flag` to `true`; in every other
configuration (either key absent, or the safety flag absent/false) the
traversal is host-restricted. -/
theorem c6_theorem (cfg : HostRestrictionCfg) :
    effective_same_host_only cfg = false ↔
      (cfg.same_host_only = some false ∧ cfg.allow_global_scan_flag = some true) := by
  rcases cfg with ⟨sOpt, aOpt⟩
  rcases sOpt with _ | b <;> rcases aOpt with _ | c <;>
    (try cases b) <;> (try cases c) <;> decide

/-! ## C8 -/

/-- C8 counterexample: a payload occurring twice in the inline list survives
into the sequence handed to the detection probes — the per-class payload
set is not deduplicated as a whole. -/
theorem c8_counterexample :
    scan_xss_payloads c8cfg fsEmpty false = ["A".data, "A".data] ∧
    ¬ (scan_xss_payloads c8cfg fsEmpty false).Nodup := by
  refine ⟨by decide, by decide⟩

/-- C8 (amended): only the file-sourced portion of each per-class payload
set is deduplicated (first-seen order, as a duplicate-free sublist of the
collected file lines, with no line lost); the inline list is prepended
unmodified, so inline duplicates and inline/file overlaps persist.  The AI
stub contributes nothing in either gating state. -/
theorem c8_theorem (cfg : PayloadsCfg) (fs : FileSys) (ai : Bool) :
    static_get_xss_payloads cfg fs = cfg.xss_reflected ++ read_files fs cfg.xss_files ∧
    static_get_sqli_payloads cfg fs = cfg.sqli_basic ++ read_files fs cfg.sqli_files ∧
    (read_files fs cfg.xss_files).Nodup ∧
    (read_files fs cfg.sqli_files).Nodup ∧
    (read_files fs cfg.xss_files).Sublist (rawFileLines fs cfg.xss_files) ∧
    (read_files fs cfg.sqli_files).Sublist (rawFileLines fs cfg.sqli_files) ∧
    (∀ x, x ∈ read_files fs cfg.xss_files ↔ x ∈ rawFileLines fs cfg.xss_files) ∧
    ai_get_payloads ai = [] := by
  refine ⟨rfl, rfl, dedupFirstSeen_nodup _, dedupFirstSeen_nodup _,
    dedupFirstSeen_sublist _, dedupFirstSeen_sublist _,
    fun x => dedupFirstSeen_mem x _, ?_⟩
  cases ai <;> rfl

/-! ## C9 -/

/-- C9 counterexample: with a successfully initialized renderer, an
exception escaping the traversal loop body ends the crawl without executing
the renderer teardown — there is no `try/finally` around the loop, so the
release is not performed on every exit path as claimed. -/
theorem c9_counterexample :
    (crawl c9net polPlain "http://h/".data true true 10).rendererOpened = true ∧
    (crawl c9net polPlain "http://h/".data true true 10).exit = LoopExit.fault ∧
    (crawl c9net polPlain "http://h/".data true true 10).teardownRan = false := by
  refine ⟨by decide, by decide, by decide⟩

/-- C9 (amended): when a renderer was successfully initialized, its teardown
is executed whenever the traversal loop ends normally — by frontier
exhaustion or by the page-cap break — but not when an exception escapes
the loop body. -/
theorem c9_theorem (net : Network) (pol : CrawlPolicy) (s : List Char)
    (useJs initOk : Bool) (fuel : Nat)
    (hOpen : (crawl net pol s useJs initOk fuel).rendererOpened = true)
    (hExit : (crawl net pol s useJs initOk fuel).exit = LoopExit.exhausted ∨
             (crawl net pol s useJs initOk fuel).exit = LoopExit.capped) :
    (crawl net pol s useJs initOk fuel).teardownRan = true := by
  have hexit : (crawl net pol s useJs initOk fuel).exit = (crawlRun net pol s fuel).2 := rfl
  have htd : (crawl net pol s useJs initOk fuel).teardownRan =
      (match (crawlRun net pol s fuel).2 with
        | LoopExit.fault => false
        | LoopExit.fuelOut => false
        | _ => useJs && initOk) := rfl
  have hop : (crawl net pol s useJs initOk fuel).rendererOpened = (useJs && initOk) := rfl
  rw [hexit] at hExit
  rw [htd]
  rcases hExit with h | h <;> rw [h] <;> rw [hop] at hOpen <;> exact hOpen

/-- C9 witness: a concrete renderer-enabled crawl whose frontier exhausts
(every fetch fails) does run the teardown. -/
theorem c9_witness :
    (crawl netDead polPlain "http://h/".data true true 10).teardownRan = true :=
  c9_theorem netDead polPlain "http://h/".data true true 10 (by decide)
    (Or.inl (by decide))

/-! ## Traversal-loop invariants (for C1, C3, C10) -/

/-- Elements of a Python-dict insertion are old entries or the new pair. -/
theorem dictInsert_mem (d : List (List Char × List PForm)) (k : List Char) (v : List PForm) :
    ∀ kv ∈ dictInsert d k v, kv ∈ d ∨ kv = (k, v) := by
  intro kv hkv
  unfold dictInsert at hkv
  split at hkv
  · rcases List.mem_map.mp hkv with ⟨kv0, hkv0, heq⟩
    by_cases h : (kv0.1 == k) = true
    · rw [if_pos h] at heq
      right; exact heq.symm
    · rw [if_neg h] at heq
      left; exact heq ▸ hkv0
  · rcases List.mem_append.mp hkv with h | h
    · left; exact h
    · right; exact List.mem_singleton.mp h

/-- Appending one fetch event preserves the invariant, provided the fetched
key was unvisited, the depth is in bounds, the visited set only grows, and
the new forms map is sound for the new page list. -/
theorem crawlInv_logged (pol : CrawlPolicy) (st : CrawlState) (inv : crawlInv pol st)
    (key : List Char) (depth : Nat) (b : Bool)
    (newVis : List (List Char)) (newPages : List (List Char))
    (newForms : List (List Char × List PForm)) (q' : List (List Char × Nat))
    (hsub : ∀ k ∈ st.visited, k ∈ newVis)
    (hkey : key ∉ st.visited)
    (hdepth : (depth : Int) ≤ pol.max_depth)
    (hb : b = true → key ∈ newVis)
    (hforms : ∀ kv ∈ newForms, kv.1 ∈ newPages ∧ kv.2 ≠ []) :
    crawlInv pol ⟨q', newVis, newPages, newForms, st.log ++ [⟨key, depth, b⟩]⟩ := by
  obtain ⟨i1, i2, i3, i4⟩ := inv
  refine ⟨?_, ?_, ?_, hforms⟩
  · intro e he hs
    rcases List.mem_append.mp he with h | h
    · exact hsub _ (i1 e h hs)
    · rw [List.mem_singleton] at h
      subst h
      exact hb hs
  · rw [List.pairwise_append]
    refine ⟨i2, List.pairwise_singleton _ _, ?_⟩
    intro a ha e' he'
    rw [List.mem_singleton] at he'
    subst he'
    intro hs hkeq
    have hkk : a.key = key := hkeq
    exact hkey (hkk ▸ i1 a ha hs)
  · intro e he
    rcases List.mem_append.mp he with h | h
    · exact i3 e h
    · rw [List.mem_singleton] at h
      subst h
      exact hdepth

set_option maxHeartbeats 1600000 in
/-- One loop iteration preserves the invariant. -/
theorem crawlStep_inv (net : Network) (pol : CrawlPolicy)
    (su so sp sh url0 : List Char) (depth : Nat) (st : CrawlState)
    (inv : crawlInv pol st) :
    crawlInv pol (crawlStep net pol su so sp sh url0 depth st).1 := by
  have hforms0 := inv.2.2.2
  unfold crawlStep
  dsimp only
  split
  · exact inv
  next hskip =>
    push_neg at hskip
    obtain ⟨hkey, hdepth⟩ := hskip
    split
    · -- transport error: log only, nothing settled
      exact crawlInv_logged pol st inv _ depth false st.visited st.pages st.forms _
        (fun k hk => hk) hkey hdepth (fun h => (Bool.false_ne_true h).elim) hforms0
    next resp hresp =>
      split
      · -- cross-host redirect dropped: the key is marked visited
        exact crawlInv_logged pol st inv _ depth true _ st.pages st.forms _
          (fun k hk => List.mem_cons_of_mem _ hk) hkey hdepth
          (fun _ => List.mem_cons_self _ _) hforms0
      · repeat' split
        all_goals dsimp only
        all_goals
          refine crawlInv_logged pol st inv _ depth _ _ _ _ _
            (fun k hk => List.mem_cons_of_mem _ hk) hkey hdepth
            (fun h => of_decide_eq_true h) ?_
        all_goals first
          | exact hforms0
          | exact fun kv hkv =>
              ⟨List.mem_append_left _ (hforms0 kv hkv).1, (hforms0 kv hkv).2⟩
          | (intro kv hkv
             rcases dictInsert_mem _ _ _ kv hkv with h | h
             · exact ⟨List.mem_append_left _ (hforms0 kv h).1, (hforms0 kv h).2⟩
             · subst h
               refine ⟨List.mem_append_right _ (List.mem_singleton.mpr rfl), ?_⟩
               assumption)

/-- One loop iteration respects the page cap: a continuing iteration keeps
the page count strictly below the cap; a stopping one keeps it at most the
cap. -/
theorem crawlStep_cap (net : Network) (pol : CrawlPolicy)
    (su so sp sh url0 : List Char) (depth : Nat) (st : CrawlState)
    (hn : 1 ≤ pol.max_pages)
    (hlt : (st.pages.length : Int) < pol.max_pages) :
    ((crawlStep net pol su so sp sh url0 depth st).2 = none →
      (((crawlStep net pol su so sp sh url0 depth st).1.pages.length : Int) < pol.max_pages)) ∧
    (((crawlStep net pol su so sp sh url0 depth st).1.pages.length : Int) ≤ pol.max_pages) := by
  unfold crawlStep
  dsimp only
  repeat' split
  all_goals first
    | exact ⟨fun _ => hlt, le_of_lt hlt⟩
    | (refine ⟨fun h => Option.noConfusion h, ?_⟩
       simp only [List.length_append, List.length_singleton]
       push_cast
       omega)
    | (refine ⟨fun _ => ?_, ?_⟩ <;>
        (simp only [List.length_append, List.length_singleton] at *
         push_cast at *
         omega))

/-- The loop preserves the invariant. -/
theorem crawlLoop_inv (net : Network) (pol : CrawlPolicy) (su so sp sh : List Char) :
    ∀ (fuel : Nat) (st : CrawlState), crawlInv pol st →
      crawlInv pol (crawlLoop net pol su so sp sh fuel st).1 := by
  intro fuel
  induction fuel with
  | zero => intro st inv; exact inv
  | succ f ih =>
    intro st inv
    simp only [crawlLoop]
    rcases hq : st.queue with _ | ⟨⟨url0, depth⟩, qrest⟩
    · exact inv
    · have hstep : crawlInv pol (crawlStep net pol su so sp sh url0 depth
          { st with queue := qrest }).1 :=
        crawlStep_inv net pol su so sp sh url0 depth _ inv
      rcases hpr : (crawlStep net pol su so sp sh url0 depth { st with queue := qrest }).2
        with _ | e
      · simp only [hpr]
        exact ih _ hstep
      · simp only [hpr]
        exact hstep

/-- The loop never lets the page list exceed the cap. -/
theorem crawlLoop_cap (net : Network) (pol : CrawlPolicy) (su so sp sh : List Char)
    (hn : 1 ≤ pol.max_pages) :
    ∀ (fuel : Nat) (st : CrawlState), (st.pages.length : Int) < pol.max_pages →
      (((crawlLoop net pol su so sp sh fuel st).1.pages.length : Int) ≤ pol.max_pages) := by
  intro fuel
  induction fuel with
  | zero => intro st hlt; exact le_of_lt hlt
  | succ f ih =>
    intro st hlt
    simp only [crawlLoop]
    rcases hq : st.queue with _ | ⟨⟨url0, depth⟩, qrest⟩
    · exact le_of_lt hlt
    · have hcap := crawlStep_cap net pol su so sp sh url0 depth
        { st with queue := qrest } hn hlt
      rcases hpr : (crawlStep net pol su so sp sh url0 depth { st with queue := qrest }).2
        with _ | e
      · simp only [hpr]
        exact ih _ (hcap.1 hpr)
      · simp only [hpr]
        exact hcap.2

/-- The invariant holds at the seeded initial state. -/
theorem crawlInv_init (pol : CrawlPolicy) (start_url : List Char) :
    crawlInv pol ⟨[(start_url, 0)], [], [], [], []⟩ := by
  refine ⟨?_, ?_, ?_, ?_⟩ <;> simp

/-! ## C1 -/

/-- C1 counterexample: a crawl in which two session GETs are issued for
URLs with the same canonical key: the first fetch of `http://h/a` fails
with a transport error, the key is not marked visited, and a later frontier
item with the same key is fetched again. -/
theorem c1_counterexample :
    (crawl c1net polPlain "http://h/".data false false 10).log.map (fun e => e.key)
      = ["http://h/".data, "http://h/a".data, "http://h/b".data, "http://h/a".data] ∧
    ¬ ((crawl c1net polPlain "http://h/".data false false 10).log.map
        (fun e => e.key)).Nodup := by
  refine ⟨by decide, by decide⟩

/-- C1 (amended): once a fetch's processing marks its canonical key visited
(every outcome except a transport error, and except a followed cross-host
redirect that re-canonicalizes to a different key), no later session GET of
the traversal loop is issued for that canonical key; only unsettled fetches
(transport failures, or redirects whose key moved) can repeat a key. -/
theorem c1_theorem (net : Network) (pol : CrawlPolicy) (s : List Char)
    (useJs initOk : Bool) (fuel : Nat) :
    ((crawl net pol s useJs initOk fuel).log).Pairwise
      (fun a b => a.settled = true → a.key ≠ b.key) :=
  (crawlLoop_inv net pol (norm_url s) (start_origin_of (norm_url s))
    (start_path_of (norm_url s)) (start_host_of (norm_url s)) fuel
    ⟨[(norm_url s, 0)], [], [], [], []⟩ (crawlInv_init pol (norm_url s))).2.1

/-! ## C3 -/

/-- C3: with a positive page cap `n`, the returned page list never exceeds
`n` pages, and no frontier item whose depth exceeds `max_depth` is ever
fetched (no GET is issued for it). -/
theorem c3_theorem (net : Network) (pol : CrawlPolicy) (s : List Char)
    (useJs initOk : Bool) (fuel : Nat) (hn : 1 ≤ pol.max_pages) :
    (((crawl net pol s useJs initOk fuel).pages.length : Int) ≤ pol.max_pages) ∧
    (∀ e ∈ (crawl net pol s useJs initOk fuel).log, (e.depth : Int) ≤ pol.max_depth) := by
  constructor
  · exact crawlLoop_cap net pol (norm_url s) (start_origin_of (norm_url s))
      (start_path_of (norm_url s)) (start_host_of (norm_url s)) hn fuel
      ⟨[(norm_url s, 0)], [], [], [], []⟩ (by simpa using hn)
  · exact (crawlLoop_inv net pol (norm_url s) (start_origin_of (norm_url s))
      (start_path_of (norm_url s)) (start_host_of (norm_url s)) fuel
      ⟨[(norm_url s, 0)], [], [], [], []⟩ (crawlInv_init pol (norm_url s))).2.2.1

/-- C3 witness: at a concrete two-page site with `max_pages = 1` the bound
holds (and depth of every fetch is within `max_depth = 5`). -/
theorem c3_witness :
    (((crawl c1net c3pol "http://h/".data false false 10).pages.length : Int)
      ≤ c3pol.max_pages) ∧
    (∀ e ∈ (crawl c1net c3pol "http://h/".data false false 10).log,
      (e.depth : Int) ≤ c3pol.max_depth) :=
  c3_theorem c1net c3pol "http://h/".data false false 10 (by decide)

/-! ## C10 -/

/-- C10: every key of the forms mapping returned by a crawl is one of the
returned pages, its form list is non-empty, and consequently filtering the
mapping to crawled pages changes nothing — `discovered_forms` counts forms
on crawled pages only. -/
theorem c10_theorem (net : Network) (pol : CrawlPolicy) (s : List Char)
    (useJs initOk : Bool) (fuel : Nat) :
    (∀ kv ∈ (crawl net pol s useJs initOk fuel).forms,
      kv.1 ∈ (crawl net pol s useJs initOk fuel).pages ∧ kv.2 ≠ []) ∧
    ((crawl net pol s useJs initOk fuel).forms.filter
        (fun kv => decide (kv.1 ∈ (crawl net pol s useJs initOk fuel).pages)))
      = (crawl net pol s useJs initOk fuel).forms := by
  have h := (crawlLoop_inv net pol (norm_url s) (start_origin_of (norm_url s))
    (start_path_of (norm_url s)) (start_host_of (norm_url s)) fuel
    ⟨[(norm_url s, 0)], [], [], [], []⟩ (crawlInv_init pol (norm_url s))).2.2.2
  refine ⟨h, ?_⟩
  rw [List.filter_eq_self]
  intro kv hkv
  exact decide_eq_true (h kv hkv).1

/-- C10 witness: in a concrete crawl the recorded forms entry is keyed by a
crawled page and is non-empty. -/
theorem c10_witness :
    ("http://h/".data, [c10fm]) ∈ (crawl c10net polPlain "http://h/".data false false 10).forms ∧
    ("http://h/".data ∈ (crawl c10net polPlain "http://h/".data false false 10).pages ∧
      [c10fm] ≠ []) :=
  ⟨by decide,
    (c10_theorem c10net polPlain "http://h/".data false false 10).1
      ("http://h/".data, [c10fm]) (by decide)⟩

/-! ## C4 -/

/-- Head unfolding of the SQLi payload loop when the cap is not yet
reached: the first payload is classified exactly as the claim-side probe. -/
theorem sqliLoop_cons_eq (net : List Char → Option (List Char))
    (url param baseline : List Char) (cap : Option Int)
    (p : List Char) (rest : List (List Char)) (tested : Nat)
    (hcap : capReached cap tested = false) :
    sqliLoop net url param baseline cap (p :: rest) tested =
      (match sqliSpecProbe net url param baseline p with
       | some f => some f
       | none => sqliLoop net url param baseline cap rest (tested + 1)) := by
  rw [sqliLoop, hcap]
  simp only [Bool.false_eq_true, if_false]
  unfold sqliSpecProbe sqliSpecClassify
  dsimp only
  cases hnet : net (strip_hash (buildParamUrl url param p)) with
  | none => rfl
  | some t =>
    dsimp only
    split
    · rfl
    · split
      · rfl
      · rfl

/-- The SQLi payload loop equals first-match-wins classification over the
capped payload prefix. -/
theorem sqliLoop_eq (net : List Char → Option (List Char))
    (url param baseline : List Char) (cap : Option Int) (ps : List (List Char)) :
    ∀ tested : Nat,
      sqliLoop net url param baseline cap ps tested =
        (match cap with
         | none => ps
         | some c => ps.take ((c - tested).toNat)).findSome?
          (sqliSpecProbe net url param baseline) := by
  induction ps with
  | nil =>
    intro tested
    cases cap <;> simp [sqliLoop]
  | cons p rest ih =>
    intro tested
    cases cap with
    | none =>
      rw [sqliLoop_cons_eq net url param baseline none p rest tested rfl]
      cases hprobe : sqliSpecProbe net url param baseline p <;>
        simp [List.findSome?_cons, hprobe, ih (tested + 1)]
    | some c =>
      by_cases hc : (tested : Int) ≥ c
      · have h1 : capReached (some c) tested = true := decide_eq_true hc
        have h2 : (c - (tested : Int)).toNat = 0 := by omega
        rw [sqliLoop, h1]
        simp [h2]
      · have h1 : capReached (some c) tested = false := decide_eq_false hc
        have h2 : (c - (tested : Int)).toNat = ((c - ((tested : Int) + 1)).toNat) + 1 := by
          omega
        rw [sqliLoop_cons_eq net url param baseline (some c) p rest tested h1]
        cases hprobe : sqliSpecProbe net url param baseline p <;>
          simp [h2, List.take_succ_cons, List.findSome?_cons, hprobe, ih (tested + 1)]

set_option maxRecDepth 100000 in
/-- C4: for every URL, parameter, payload sequence and cap, `test_sqli_basic`
returns exactly the claim's classification — the first probed payload that
qualifies wins; HIGH iff the lower-cased truncated body contains a fixed
database error signature, otherwise MEDIUM iff the baseline (fetched once
pre-probe, truncated, empty on failure) is non-empty and the response length
moves by more than 500 from it, otherwise no finding.  In particular a body
containing "you have an error in your sql syntax" yields HIGH, a
600-character delta with no error text yields MEDIUM, and an equal-length
error-free response yields no finding. -/
theorem c4_theorem :
    (∀ (net : List Char → Option (List Char)) (url param : List Char)
      (payloads : List (List Char)) (cap : Option Int),
      test_sqli_basic net url param payloads cap
        = sqliSpecFinding net url param payloads cap) ∧
    test_sqli_basic c4netHigh c4url "q".data ["abc".data] none
      = some ⟨"HIGH".data, "SQLi".data, c4mod, "q".data,
          "Error-based signature with payload: abc".data⟩ ∧
    test_sqli_basic c4netMed c4url "q".data ["abc".data] none
      = some ⟨"MEDIUM".data, "SQLi".data, c4mod, "q".data,
          "Response length changed with payload: abc".data⟩ ∧
    test_sqli_basic c4netNone c4url "q".data ["abc".data] none = none := by
  refine ⟨?_, by decide, by decide, by decide⟩
  intro net url param payloads cap
  unfold test_sqli_basic sqliSpecFinding probedPrefix
  cases cap with
  | none => simpa using sqliLoop_eq net url param _ none payloads 0
  | some c =>
    have h := sqliLoop_eq net url param
      (match net (strip_hash url) with
       | some t => t.take 5000
       | none => []) (some c) payloads 0
    simpa using h

/-! ## C7: character-level facts -/

theorem char_toNat_ofNat {n : Nat} (h : n.isValidChar) : (Char.ofNat n).toNat = n := by
  rw [Char.ofNat, dif_pos h]
  rfl

theorem char_eq_iff_toNat {a b : Char} : a = b ↔ a.toNat = b.toNat := by
  constructor
  · intro h; rw [h]
  · intro h
    apply Char.ext
    exact UInt32.ext h

theorem isAlpha_iff (c : Char) :
    c.isAlpha = true ↔ (65 ≤ c.toNat ∧ c.toNat ≤ 90) ∨ (97 ≤ c.toNat ∧ c.toNat ≤ 122) := by
  simp only [Char.isAlpha, Char.isUpper, Char.isLower, Bool.or_eq_true, Bool.and_eq_true,
    decide_eq_true_iff]
  rfl

theorem isDigit_iff (c : Char) :
    c.isDigit = true ↔ 48 ≤ c.toNat ∧ c.toNat ≤ 57 := by
  simp only [Char.isDigit, Bool.and_eq_true, decide_eq_true_iff]
  rfl

theorem toLower_toNat (c : Char) :
    (c.toLower).toNat = if 65 ≤ c.toNat ∧ c.toNat ≤ 90 then c.toNat + 32 else c.toNat := by
  unfold Char.toLower
  dsimp only
  split
  next h => exact char_toNat_ofNat (Or.inl (by omega))
  next h => rfl

theorem isSchemeChar_iff (c : Char) :
    isSchemeChar c = true ↔
      ((65 ≤ c.toNat ∧ c.toNat ≤ 90) ∨ (97 ≤ c.toNat ∧ c.toNat ≤ 122) ∨
       (48 ≤ c.toNat ∧ c.toNat ≤ 57) ∨ c.toNat = 43 ∨ c.toNat = 45 ∨ c.toNat = 46) := by
  have h43 : ('+' : Char).toNat = 43 := rfl
  have h45 : ('-' : Char).toNat = 45 := rfl
  have h46 : ('.' : Char).toNat = 46 := rfl
  simp only [isSchemeChar, Char.isAlphanum, Bool.or_eq_true, isAlpha_iff, isDigit_iff,
    decide_eq_true_iff, char_eq_iff_toNat, h43, h45, h46]
  tauto

theorem alpha_gt32 {c : Char} (h : c.isAlpha = true) : 32 < c.toNat := by
  rw [isAlpha_iff] at h
  omega

theorem toLower_isAlpha {c : Char} (h : c.isAlpha = true) : (c.toLower).isAlpha = true := by
  rw [isAlpha_iff] at *
  rw [toLower_toNat]
  split <;> omega

theorem toLower_isSchemeChar {c : Char} (h : isSchemeChar c = true) :
    isSchemeChar c.toLower = true := by
  rw [isSchemeChar_iff] at *
  rw [toLower_toNat]
  split <;> omega

theorem toLower_toLower (c : Char) : (c.toLower).toLower = c.toLower := by
  rw [char_eq_iff_toNat, toLower_toNat, toLower_toNat]
  split_ifs <;> omega

theorem schemeChar_facts {c : Char} (h : isSchemeChar c = true) :
    CleanChar c ∧ 32 < c.toNat ∧ c ≠ ':' ∧ c ≠ '/' ∧ c ≠ '?' ∧ c ≠ '#' := by
  rw [isSchemeChar_iff] at h
  have h58 : (':' : Char).toNat = 58 := rfl
  have h47 : ('/' : Char).toNat = 47 := rfl
  have h63 : ('?' : Char).toNat = 63 := rfl
  have h35 : ('#' : Char).toNat = 35 := rfl
  refine ⟨⟨?_, ?_, ?_⟩, ?_, ?_, ?_, ?_, ?_⟩ <;>
    (try simp only [ne_eq, char_eq_iff_toNat, h58, h47, h63, h35]) <;> omega

/-! ## C7: list splitting facts -/

theorem splitAtFirst_of_not_mem {sep : Char} {l : List Char} (h : sep ∉ l) :
    splitAtFirst sep l = none := by
  induction l with
  | nil => rfl
  | cons c cs ih =>
    rw [splitAtFirst,
      if_neg (fun hc => h (by rw [← hc]; exact List.mem_cons_self c cs)),
      ih (fun hc => h (List.mem_cons_of_mem c hc))]
    rfl

theorem splitAtFirst_eq_some {sep : Char} {l a b : List Char}
    (h : splitAtFirst sep l = some (a, b)) : l = a ++ sep :: b ∧ sep ∉ a := by
  induction l generalizing a b with
  | nil => cases h
  | cons c cs ih =>
    rw [splitAtFirst] at h
    by_cases hc : c = sep
    · rw [if_pos hc] at h
      rw [Option.some_inj] at h
      obtain ⟨rfl, rfl⟩ := Prod.mk.inj h.symm
      subst hc
      exact ⟨rfl, by simp⟩
    · rw [if_neg hc] at h
      cases hsp : splitAtFirst sep cs with
      | none => rw [hsp] at h; cases h
      | some pr =>
        obtain ⟨a', b'⟩ := pr
        rw [hsp] at h
        simp only [Option.map_some'] at h
        rw [Option.some_inj] at h
        obtain ⟨rfl, rfl⟩ := Prod.mk.inj h.symm
        obtain ⟨hl, hna⟩ := ih hsp
        refine ⟨by rw [List.cons_append, ← hl], ?_⟩
        intro hmem
        rcases List.mem_cons.mp hmem with h1 | h1
        · exact hc h1.symm
        · exact hna h1

theorem splitAtFirst_append {sep : Char} {a : List Char} (b : List Char) (h : sep ∉ a) :
    splitAtFirst sep (a ++ sep :: b) = some (a, b) := by
  induction a with
  | nil => simp [splitAtFirst]
  | cons c cs ih =>
    rw [List.cons_append, splitAtFirst,
      if_neg (fun hc => h (by rw [← hc]; exact List.mem_cons_self c cs)),
      ih (fun hc => h (List.mem_cons_of_mem c hc))]
    rfl

theorem takeNetloc_append {n : List Char} (t : List Char)
    (hn : ∀ c ∈ n, ¬(c = '/' ∨ c = '?' ∨ c = '#'))
    (ht : t.head? = some '/') : takeNetloc (n ++ t) = (n, t) := by
  induction n with
  | nil =>
    cases t with
    | nil => cases ht
    | cons c cs =>
      injection ht with ht'
      subst ht'
      simp [takeNetloc]
  | cons c cs ih =>
    rw [List.cons_append, takeNetloc]
    have hc := hn c (List.mem_cons_self c cs)
    rw [if_neg ?hneg]
    case hneg =>
      simp only [Bool.or_eq_true, decide_eq_true_iff]
      tauto
    rw [ih (fun x hx => hn x (List.mem_cons_of_mem c hx))]

theorem removeTabNewline_eq_self {l : List Char} (h : CleanStr l) :
    removeTabNewline l = l := by
  rw [removeTabNewline, List.filter_eq_self]
  intro c hc
  obtain ⟨h9, h13, h10⟩ := h c hc
  have e9 : ('\t' : Char).toNat = 9 := rfl
  have e13 : ('\r' : Char).toNat = 13 := rfl
  have e10 : ('\n' : Char).toNat = 10 := rfl
  have d9 : decide (c = '\t') = false := decide_eq_false (by rw [char_eq_iff_toNat, e9]; exact h9)
  have d13 : decide (c = '\r') = false := decide_eq_false (by rw [char_eq_iff_toNat, e13]; exact h13)
  have d10 : decide (c = '\n') = false := decide_eq_false (by rw [char_eq_iff_toNat, e10]; exact h10)
  rw [d9, d13, d10]
  rfl

theorem lstripControlSpace_eq_self {l : List Char}
    (h : ∀ c, l.head? = some c → 32 < c.toNat) :
    lstripControlSpace l = l := by
  cases l with
  | nil => rfl
  | cons c cs =>
    have hc := h c rfl
    rw [lstripControlSpace, List.dropWhile_cons, if_neg ?hneg]
    case hneg =>
      simp only [decide_eq_true_iff]
      intro hle
      have : c.toNat ≤ 32 := hle
      omega

/-! ## C7: parser stage lemmas -/

theorem optPart_nil (sep : Char) : optPart sep [] = [] := rfl

theorem optPart_ne (sep : Char) {x : List Char} (h : x ≠ []) : optPart sep x = sep :: x :=
  if_neg h

theorem pyLower_eq_self {s : List Char} (h : ∀ c ∈ s, c.toLower = c) : pyLower s = s := by
  induction s with
  | nil => rfl
  | cons c cs ih =>
    rw [pyLower, List.map_cons, h c (List.mem_cons_self c cs)]
    rw [show List.map Char.toLower cs = pyLower cs from rfl,
      ih (fun x hx => h x (List.mem_cons_of_mem c hx))]

theorem scheme_stage_valid {s : List Char} (t : List Char)
    (hhead : ∃ c0 t0, s = c0 :: t0 ∧ c0.isAlpha = true)
    (hall : ∀ c ∈ s, isSchemeChar c = true ∧ c.toLower = c) :
    pyUrlsplitScheme (s ++ ':' :: t) = (s, t) := by
  obtain ⟨c0, t0, rfl, halpha⟩ := hhead
  have hnc : ':' ∉ c0 :: t0 := fun hmem => absurd (hall ':' hmem).1 (by decide)
  unfold pyUrlsplitScheme
  rw [splitAtFirst_append t hnc]
  dsimp only
  rw [if_pos (Bool.and_eq_true ..
      |>.mpr ⟨halpha, List.all_eq_true.mpr (fun c hc => (hall c hc).1)⟩)]
  rw [pyLower_eq_self (fun c hc => (hall c hc).2)]

theorem scheme_stage_slash {r : List Char} (h : r.head? = some '/') :
    pyUrlsplitScheme r = ([], r) := by
  unfold pyUrlsplitScheme
  cases hsp : splitAtFirst ':' r with
  | none => rfl
  | some pr =>
    obtain ⟨pre, post⟩ := pr
    obtain ⟨hl, hnp⟩ := splitAtFirst_eq_some hsp
    cases pre with
    | nil => rfl
    | cons c cs =>
      have hc : c = '/' := by
        rw [hl] at h
        simpa using h
      dsimp only
      rw [if_neg]
      intro hcond
      rw [Bool.and_eq_true] at hcond
      rw [hc] at hcond
      exact absurd hcond.1 (by decide)

theorem netloc_stage_emit {n : List Char} (t : List Char) (hn : NoDelim n)
    (ht : t.head? = some '/') :
    pyUrlsplitNetloc ('/' :: '/' :: (n ++ t)) = (n, t) := by
  unfold pyUrlsplitNetloc
  rw [if_pos (show List.take 2 ('/' :: '/' :: (n ++ t)) = ['/', '/'] from rfl)]
  rw [show List.drop 2 ('/' :: '/' :: (n ++ t)) = n ++ t from rfl]
  exact takeNetloc_append t
    (fun c hc => by obtain ⟨a, b, d⟩ := hn c hc; rintro (h | h | h) <;> simp_all) ht

theorem netloc_stage_skip {r : List Char} (h : r.take 2 ≠ ['/', '/']) :
    pyUrlsplitNetloc r = ([], r) := by
  unfold pyUrlsplitNetloc
  rw [if_neg h]

theorem bodySplit_build (pa q f : List Char) (h1 : '#' ∉ pa) (h2 : '?' ∉ pa)
    (h3 : '#' ∉ q) :
    bodySplit (pa ++ (optPart '?' q ++ optPart '#' f)) = (pa, q, f) := by
  by_cases hq : q = [] <;> by_cases hf : f = []
  · subst hq hf
    rw [optPart_nil, optPart_nil, List.append_nil, List.append_nil]
    unfold bodySplit
    rw [splitAtFirst_of_not_mem h1]
    dsimp only
    rw [splitAtFirst_of_not_mem h2]
  · subst hq
    rw [optPart_nil, optPart_ne _ hf, List.nil_append]
    unfold bodySplit
    rw [splitAtFirst_append f h1]
    dsimp only
    rw [splitAtFirst_of_not_mem h2]
  · subst hf
    rw [optPart_nil, optPart_ne _ hq, List.append_nil]
    unfold bodySplit
    rw [splitAtFirst_of_not_mem (show '#' ∉ pa ++ '?' :: q from by
      simp only [List.mem_append, List.mem_cons]
      rintro (h | h | h)
      · exact h1 h
      · exact absurd h (by decide)
      · exact h3 h)]
    dsimp only
    rw [splitAtFirst_append q h2]
  · rw [optPart_ne _ hq, optPart_ne _ hf, ← List.append_assoc]
    unfold bodySplit
    rw [show pa ++ '?' :: q ++ '#' :: f = (pa ++ '?' :: q) ++ '#' :: f from by
      rw [List.append_assoc]]
    rw [splitAtFirst_append f (show '#' ∉ pa ++ '?' :: q from by
      simp only [List.mem_append, List.mem_cons]
      rintro (h | h | h)
      · exact h1 h
      · exact absurd h (by decide)
      · exact h3 h)]
    dsimp only
    rw [splitAtFirst_append q h2]

theorem bodySplit_frag (pa f : List Char) (h1 : '#' ∉ pa) :
    (bodySplit (pa ++ '#' :: f)).2.2 = f := by
  unfold bodySplit
  rw [splitAtFirst_append f h1]

/-- `pyUrlunsplit` written as scheme part, netloc part and body, for a path
that starts with a slash. -/
theorem pyUrlunsplit_decompose (s n pa q f : List Char) (hpa : pa.head? = some '/') :
    pyUrlunsplit ⟨s, n, pa, q, f⟩ =
      (if s = [] then [] else s ++ [':']) ++
      ((if n ≠ [] ∨ (s ≠ [] ∧ s ∈ uses_netloc ∧ pa.take 2 ≠ ['/', '/']) then
          '/' :: '/' :: n
        else []) ++
      (pa ++ (optPart '?' q ++ optPart '#' f))) := by
  obtain ⟨pa', rfl⟩ : ∃ pa', pa = '/' :: pa' := by
    cases pa with
    | nil => cases hpa
    | cons c t =>
      injection hpa with h
      exact ⟨t, by rw [h]⟩
  by_cases hcond : (n ≠ [] ∨ (s ≠ [] ∧ s ∈ uses_netloc ∧ ('/' :: pa').take 2 ≠ ['/', '/'])) <;>
    by_cases hs : s = [] <;> by_cases hq : q = [] <;> by_cases hf : f = [] <;>
      simp [pyUrlunsplit, optPart, hcond, hs, hq, hf, List.append_assoc] <;>
        (try (by_cases hn : n = [] <;> simp [hn, List.append_assoc])) <;>
        (try (by_cases hu : s ∈ uses_netloc ∧ ¬List.take 1 pa' = ['/'] <;>
          simp [hu, List.append_assoc]))

/-! ## C7: slash-collapsing facts -/

theorem collapse_mem {l : List Char} :
    ∀ {b : Bool} {c : Char}, c ∈ collapseSlashAux b l → c ∈ l := by
  induction l with
  | nil => intro b c hc; cases hc
  | cons x xs ih =>
    intro b c hc
    by_cases hx : x = '/'
    · rw [collapseSlashAux, if_pos hx] at hc
      cases b with
      | false =>
        rcases List.mem_cons.mp hc with h | h
        · exact List.mem_cons.mpr (Or.inl (h.trans hx.symm))
        · exact List.mem_cons_of_mem x (ih h)
      | true => exact List.mem_cons_of_mem x (ih hc)
    · rw [collapseSlashAux, if_neg hx] at hc
      rcases List.mem_cons.mp hc with h | h
      · exact List.mem_cons.mpr (Or.inl h)
      · exact List.mem_cons_of_mem x (ih h)

theorem collapse_head_true {xs : List Char} :
    ∀ {c : Char}, (collapseSlashAux true xs).head? = some c → c ≠ '/' := by
  induction xs with
  | nil => intro c hc; cases hc
  | cons x xs ih =>
    intro c hc
    by_cases hx : x = '/'
    · rw [collapseSlashAux, if_pos hx, if_pos rfl] at hc
      exact ih hc
    · rw [collapseSlashAux, if_neg hx] at hc
      injection hc with hc'
      rw [← hc']
      exact hx

theorem collapse_noDS : ∀ (xs : List Char) (b : Bool), NoDS (collapseSlashAux b xs) := by
  intro xs
  induction xs with
  | nil => intro b; exact List.chain'_nil
  | cons x xs ih =>
    intro b
    by_cases hx : x = '/'
    · rw [collapseSlashAux, if_pos hx]
      cases b with
      | true => exact ih true
      | false =>
        rw [if_neg (by simp)]
        rw [NoDS, List.chain'_cons']
        refine ⟨?_, ih true⟩
        intro y hy
        have := collapse_head_true hy
        tauto
    · rw [collapseSlashAux, if_neg hx]
      rw [NoDS, List.chain'_cons']
      refine ⟨?_, ih false⟩
      intro y hy
      tauto

theorem collapse_eq_self : ∀ (l : List Char), NoDS l →
    collapseSlashAux false l = l ∧ (l.head? ≠ some '/' → collapseSlashAux true l = l) := by
  intro l
  induction l with
  | nil => intro _; exact ⟨rfl, fun _ => rfl⟩
  | cons x xs ih =>
    intro h
    rw [NoDS, List.chain'_cons'] at h
    obtain ⟨hlink, htail⟩ := h
    have hxs : xs.head? ≠ some '/' → collapseSlashAux true xs = xs := (ih htail).2
    constructor
    · by_cases hx : x = '/'
      · rw [collapseSlashAux, if_pos hx, if_neg (by simp)]
        rw [hxs ?hh, hx]
        case hh =>
          intro hhead
          exact (hlink '/' hhead) ⟨hx, rfl⟩
      · rw [collapseSlashAux, if_neg hx, (ih htail).1]
    · intro hhead
      have hx : x ≠ '/' := by
        intro hc
        exact hhead (by simp [hc])
      rw [collapseSlashAux, if_neg hx, (ih htail).1]

theorem normalize_head (p : List Char) :
    (normalize_slash_path p).head? = some '/' := by
  unfold normalize_slash_path
  split
  · rfl
  · rw [collapseSlashAux, if_pos rfl, if_neg (by simp)]
    rfl

theorem normalize_noDS (p : List Char) : NoDS (normalize_slash_path p) := by
  unfold normalize_slash_path
  split
  · exact List.chain'_singleton _
  · exact collapse_noDS _ false

theorem noDS_cons_head {t : List Char} (h : NoDS ('/' :: t)) : t.head? ≠ some '/' := by
  rw [NoDS, List.chain'_cons'] at h
  intro hc
  exact (h.1 '/' hc) ⟨rfl, rfl⟩

theorem normalize_take2 (p : List Char) :
    (normalize_slash_path p).take 2 ≠ ['/', '/'] := by
  have hh := normalize_head p
  have hn := normalize_noDS p
  obtain ⟨t, ht⟩ : ∃ t, normalize_slash_path p = '/' :: t := by
    cases hnp : normalize_slash_path p with
    | nil => rw [hnp] at hh; cases hh
    | cons c cs =>
      rw [hnp] at hh
      injection hh with hh'
      exact ⟨cs, by rw [hh']⟩
  rw [ht]
  rw [ht] at hn
  have := noDS_cons_head hn
  cases t with
  | nil => simp
  | cons c cs =>
    intro hc
    injection hc with h1 h2
    injection h2 with h2
    exact this (by simp [h2])

theorem normalize_mem {p : List Char} :
    ∀ c ∈ normalize_slash_path p, c = '/' ∨ c ∈ p := by
  intro c hc
  unfold normalize_slash_path at hc
  split at hc
  · rcases List.mem_singleton.mp hc with rfl
    exact Or.inl rfl
  · have := collapse_mem hc
    rcases List.mem_cons.mp this with h | h
    · exact Or.inl h
    · exact Or.inr (List.dropWhile_sublist _ |>.subset h)

theorem normalize_of_norm {l : List Char} (hh : l.head? = some '/') (hn : NoDS l) :
    normalize_slash_path l = l := by
  obtain ⟨t, rfl⟩ : ∃ t, l = '/' :: t := by
    cases l with
    | nil => cases hh
    | cons c cs =>
      injection hh with hh'
      exact ⟨cs, by rw [hh']⟩
  have hth := noDS_cons_head hn
  unfold normalize_slash_path
  rw [if_neg (by simp)]
  have hstrip : lstripSlash ('/' :: t) = t := by
    rw [lstripSlash, List.dropWhile_cons, if_pos (by simp)]
    cases t with
    | nil => rfl
    | cons c cs =>
      rw [List.dropWhile_cons, if_neg]
      simp only [decide_eq_true_iff]
      intro hc
      exact hth (by simp [hc])
  rw [hstrip]
  exact (collapse_eq_self ('/' :: t) hn).1

theorem normalize_idem (p : List Char) :
    normalize_slash_path (normalize_slash_path p) = normalize_slash_path p :=
  normalize_of_norm (normalize_head p) (normalize_noDS p)

/-! ## C7: parser well-formedness -/

theorem removeTabNewline_clean (l : List Char) : CleanStr (removeTabNewline l) := by
  intro c hc
  have hp := List.of_mem_filter hc
  refine ⟨?_, ?_, ?_⟩
  · intro h
    rw [show c = '\t' from char_eq_iff_toNat.mpr (by rw [h]; rfl)] at hp
    exact absurd hp (by decide)
  · intro h
    rw [show c = '\r' from char_eq_iff_toNat.mpr (by rw [h]; rfl)] at hp
    exact absurd hp (by decide)
  · intro h
    rw [show c = '\n' from char_eq_iff_toNat.mpr (by rw [h]; rfl)] at hp
    exact absurd hp (by decide)

theorem splitAtFirst_none_not_mem {sep : Char} {l : List Char}
    (h : splitAtFirst sep l = none) : sep ∉ l := by
  induction l with
  | nil => simp
  | cons c cs ih =>
    rw [splitAtFirst] at h
    by_cases hc : c = sep
    · rw [if_pos hc] at h; cases h
    · rw [if_neg hc] at h
      cases hsp : splitAtFirst sep cs with
      | none =>
        intro hmem
        rcases List.mem_cons.mp hmem with h1 | h1
        · exact hc h1.symm
        · exact ih hsp h1
      | some pr => rw [hsp] at h; cases h

theorem scheme_stage_out (url : List Char) :
    SchemeSpec (pyUrlsplitScheme url).1 ∧ (∀ c ∈ (pyUrlsplitScheme url).2, c ∈ url) := by
  unfold pyUrlsplitScheme
  cases hsp : splitAtFirst ':' url with
  | none => exact ⟨Or.inl rfl, fun c hc => hc⟩
  | some pr =>
    obtain ⟨pre, post⟩ := pr
    obtain ⟨hl, hnp⟩ := splitAtFirst_eq_some hsp
    cases pre with
    | nil => exact ⟨Or.inl rfl, fun c hc => hc⟩
    | cons c0 cs =>
      dsimp only
      split
      next hcond =>
        rw [Bool.and_eq_true, List.all_eq_true] at hcond
        refine ⟨Or.inr ⟨⟨c0.toLower, pyLower cs, rfl, toLower_isAlpha hcond.1⟩, ?_⟩, ?_⟩
        · intro c hc
          rcases List.mem_map.mp hc with ⟨c', hc', rfl⟩
          exact ⟨toLower_isSchemeChar (hcond.2 c' hc'), toLower_toLower c'⟩
        · intro c hc
          rw [hl]
          exact List.mem_append_right _ (List.mem_cons_of_mem ':' hc)
      next => exact ⟨Or.inl rfl, fun c hc => hc⟩

theorem takeNetloc_spec (l : List Char) :
    (takeNetloc l).1 ++ (takeNetloc l).2 = l ∧
    (∀ c ∈ (takeNetloc l).1, ¬(c = '/' ∨ c = '?' ∨ c = '#')) := by
  induction l with
  | nil => exact ⟨rfl, by simp [takeNetloc]⟩
  | cons x xs ih =>
    rw [takeNetloc]
    by_cases hx : (x = '/' || x = '?' || x = '#') = true
    · rw [if_pos hx]
      exact ⟨rfl, by simp⟩
    · rw [if_neg hx]
      dsimp only
      refine ⟨by rw [List.cons_append, ih.1], ?_⟩
      intro c hc
      rcases List.mem_cons.mp hc with h | h
      · subst h
        simp only [Bool.or_eq_true, decide_eq_true_iff] at hx
        tauto
      · exact ih.2 c h

theorem netloc_stage_out (url : List Char) :
    NoDelim (pyUrlsplitNetloc url).1 ∧
    (∀ c ∈ (pyUrlsplitNetloc url).1, c ∈ url) ∧
    (∀ c ∈ (pyUrlsplitNetloc url).2, c ∈ url) := by
  unfold pyUrlsplitNetloc
  split
  · obtain ⟨happ, hnd⟩ := takeNetloc_spec (url.drop 2)
    refine ⟨?_, ?_, ?_⟩
    · intro c hc
      have := hnd c hc
      exact ⟨fun h => this (Or.inl h), fun h => this (Or.inr (Or.inl h)),
        fun h => this (Or.inr (Or.inr h))⟩
    · intro c hc
      exact List.drop_subset 2 url (happ ▸ List.mem_append_left _ hc)
    · intro c hc
      exact List.drop_subset 2 url (happ ▸ List.mem_append_right _ hc)
  · exact ⟨by simp [NoDelim], by simp, fun c hc => hc⟩

theorem bodySplit_out (url : List Char) :
    ('#' ∉ (bodySplit url).1 ∧ '?' ∉ (bodySplit url).1 ∧ ∀ c ∈ (bodySplit url).1, c ∈ url) ∧
    ('#' ∉ (bodySplit url).2.1 ∧ ∀ c ∈ (bodySplit url).2.1, c ∈ url) ∧
    (∀ c ∈ (bodySplit url).2.2, c ∈ url) := by
  unfold bodySplit
  dsimp only
  cases hfr : splitAtFirst '#' url with
  | none =>
    have hnf := splitAtFirst_none_not_mem hfr
    dsimp only
    cases hqu : splitAtFirst '?' url with
    | none =>
      have hnq := splitAtFirst_none_not_mem hqu
      dsimp only
      exact ⟨⟨hnf, hnq, fun c hc => hc⟩, ⟨by simp, by simp⟩, by simp⟩
    | some pr =>
      obtain ⟨a, b⟩ := pr
      obtain ⟨hl, hna⟩ := splitAtFirst_eq_some hqu
      dsimp only
      refine ⟨⟨?_, hna, ?_⟩, ⟨?_, ?_⟩, by simp⟩
      · intro hc
        exact hnf (hl ▸ List.mem_append_left _ hc)
      · intro c hc
        exact hl ▸ List.mem_append_left _ hc
      · intro hc
        exact hnf (hl ▸ List.mem_append_right _ (List.mem_cons_of_mem '?' hc))
      · intro c hc
        exact hl ▸ List.mem_append_right _ (List.mem_cons_of_mem '?' hc)
  | some pr =>
    obtain ⟨a, b⟩ := pr
    obtain ⟨hl, hna⟩ := splitAtFirst_eq_some hfr
    dsimp only
    have hsubA : ∀ c ∈ a, c ∈ url := fun c hc => hl ▸ List.mem_append_left _ hc
    have hsubB : ∀ c ∈ b, c ∈ url :=
      fun c hc => hl ▸ List.mem_append_right _ (List.mem_cons_of_mem '#' hc)
    cases hqu : splitAtFirst '?' a with
    | none =>
      have hnq := splitAtFirst_none_not_mem hqu
      dsimp only
      exact ⟨⟨hna, hnq, hsubA⟩, ⟨by simp, by simp⟩, hsubB⟩
    | some pr2 =>
      obtain ⟨a2, b2⟩ := pr2
      obtain ⟨hl2, hna2⟩ := splitAtFirst_eq_some hqu
      dsimp only
      refine ⟨⟨?_, hna2, ?_⟩, ⟨?_, ?_⟩, hsubB⟩
      · intro hc
        exact hna (hl2 ▸ List.mem_append_left _ hc)
      · intro c hc
        exact hsubA c (hl2 ▸ List.mem_append_left _ hc)
      · intro hc
        exact hna (hl2 ▸ List.mem_append_right _ (List.mem_cons_of_mem '?' hc))
      · intro c hc
        exact hsubA c (hl2 ▸ List.mem_append_right _ (List.mem_cons_of_mem '?' hc))

theorem pyUrlsplit_wf (u : List Char) :
    SchemeSpec (pyUrlsplit u).scheme ∧
    (NoDelim (pyUrlsplit u).netloc ∧ CleanStr (pyUrlsplit u).netloc) ∧
    ('#' ∉ (pyUrlsplit u).path ∧ '?' ∉ (pyUrlsplit u).path ∧ CleanStr (pyUrlsplit u).path) ∧
    ('#' ∉ (pyUrlsplit u).query ∧ CleanStr (pyUrlsplit u).query) ∧
    CleanStr (pyUrlsplit u).fragment := by
  have hclean0 := removeTabNewline_clean (lstripControlSpace u)
  obtain ⟨hs, hs2⟩ := scheme_stage_out (removeTabNewline (lstripControlSpace u))
  obtain ⟨hn1, hn2, hn3⟩ := netloc_stage_out
    (pyUrlsplitScheme (removeTabNewline (lstripControlSpace u))).2
  obtain ⟨⟨hp1, hp2, hp3⟩, ⟨hq1, hq2⟩, hf1⟩ := bodySplit_out
    (pyUrlsplitNetloc (pyUrlsplitScheme (removeTabNewline (lstripControlSpace u))).2).2
  refine ⟨hs, ⟨hn1, ?_⟩, ⟨hp1, hp2, ?_⟩, ⟨hq1, ?_⟩, ?_⟩
  · exact fun c hc => hclean0 c (hs2 c (hn2 c hc))
  · exact fun c hc => hclean0 c (hs2 c (hn3 c (hp3 c hc)))
  · exact fun c hc => hclean0 c (hs2 c (hn3 c (hq2 c hc)))
  · exact fun c hc => hclean0 c (hs2 c (hn3 c (hf1 c hc)))

/-! ## C7: the split of a well-formed unsplit -/

theorem cleanStr_nil : CleanStr ([] : List Char) :=
  fun c hc => absurd hc (List.not_mem_nil c)

theorem cleanStr_append {a b : List Char} (ha : CleanStr a) (hb : CleanStr b) :
    CleanStr (a ++ b) :=
  fun c hc => (List.mem_append.mp hc).elim (ha c) (hb c)

theorem cleanStr_cons {c : Char} {l : List Char} (hc : CleanChar c) (hl : CleanStr l) :
    CleanStr (c :: l) :=
  fun d hd => (List.mem_cons.mp hd).elim (fun h => h ▸ hc) (hl d)

theorem cleanChar_of_toNat {c : Char} (h : 13 < c.toNat) : CleanChar c :=
  ⟨by omega, by omega, by omega⟩

theorem cleanStr_optPart {sep : Char} {x : List Char} (hsep : CleanChar sep)
    (hx : CleanStr x) : CleanStr (optPart sep x) := by
  unfold optPart
  split
  · exact cleanStr_nil
  · exact cleanStr_cons hsep hx

theorem schemeSpec_clean {s : List Char} (hs : SchemeSpec s) : CleanStr s := by
  rcases hs with rfl | ⟨_, hall⟩
  · exact cleanStr_nil
  · exact fun c hc => (schemeChar_facts (hall c hc).1).1

theorem scheme_stage_valid2 {s : List Char} (t : List Char)
    (hhead : ∃ c0 t0, s = c0 :: t0 ∧ c0.isAlpha = true)
    (hall : ∀ c ∈ s, isSchemeChar c = true ∧ c.toLower = c) :
    pyUrlsplitScheme ((s ++ [':']) ++ t) = (s, t) := by
  rw [List.append_assoc]
  exact scheme_stage_valid t hhead hall

theorem netloc_stage_emit2 {n : List Char} (t : List Char) (hn : NoDelim n)
    (ht : t.head? = some '/') :
    pyUrlsplitNetloc (('/' :: '/' :: n) ++ t) = (n, t) := by
  have h : ('/' :: '/' :: n) ++ t = '/' :: '/' :: (n ++ t) := rfl
  rw [h]
  exact netloc_stage_emit t hn ht

theorem pyUrlsplit_stages {r : List Char}
    (h32 : ∀ c, r.head? = some c → 32 < c.toNat) (hclean : CleanStr r) :
    pyUrlsplit r = ⟨(pyUrlsplitScheme r).1,
      (pyUrlsplitNetloc (pyUrlsplitScheme r).2).1,
      (bodySplit (pyUrlsplitNetloc (pyUrlsplitScheme r).2).2).1,
      (bodySplit (pyUrlsplitNetloc (pyUrlsplitScheme r).2).2).2.1,
      (bodySplit (pyUrlsplitNetloc (pyUrlsplitScheme r).2).2).2.2⟩ := by
  unfold pyUrlsplit
  rw [lstripControlSpace_eq_self h32, removeTabNewline_eq_self hclean]

set_option maxHeartbeats 1000000 in
/-- Re-splitting the unsplit of well-formed components recovers the scheme
and the netloc exactly, and hands the path/query/fragment body to
`bodySplit` unchanged. -/
theorem pyUrlsplit_unsplit_stages (s n pa q f : List Char)
    (hs : SchemeSpec s) (hnd : NoDelim n) (hnc : CleanStr n)
    (hph : pa.head? = some '/') (hp2 : pa.take 2 ≠ ['/', '/'])
    (hpc : CleanStr pa) (hqc : CleanStr q) (hfc : CleanStr f) :
    pyUrlsplit (pyUrlunsplit ⟨s, n, pa, q, f⟩) =
      ⟨s, n,
       (bodySplit (pa ++ (optPart '?' q ++ optPart '#' f))).1,
       (bodySplit (pa ++ (optPart '?' q ++ optPart '#' f))).2.1,
       (bodySplit (pa ++ (optPart '?' q ++ optPart '#' f))).2.2⟩ := by
  obtain ⟨pa', rfl⟩ : ∃ pa', pa = '/' :: pa' := by
    cases pa with
    | nil => cases hph
    | cons c cs =>
      injection hph with h
      exact ⟨cs, by rw [h]⟩
  rw [pyUrlunsplit_decompose s n ('/' :: pa') q f rfl]
  have copt : CleanStr (optPart '?' q ++ optPart '#' f) :=
    cleanStr_append (cleanStr_optPart (cleanChar_of_toNat (by decide)) hqc)
      (cleanStr_optPart (cleanChar_of_toNat (by decide)) hfc)
  have cbody : CleanStr (('/' :: pa') ++ (optPart '?' q ++ optPart '#' f)) :=
    cleanStr_append hpc copt
  have hbh : (('/' :: pa') ++ (optPart '?' q ++ optPart '#' f)).head? = some '/' := rfl
  have hb2 : (('/' :: pa') ++ (optPart '?' q ++ optPart '#' f)).take 2 ≠ ['/', '/'] := by
    intro h
    have h' : '/' :: (pa' ++ (optPart '?' q ++ optPart '#' f)).take 1 = ['/', '/'] := h
    injection h' with h0 h1
    cases pa' with
    | cons c pa'' =>
      have hc : c = '/' := by simpa using h1
      exact hp2 (by rw [hc]; rfl)
    | nil =>
      by_cases hq : q = []
      · by_cases hf : f = []
        · rw [hq, hf] at h1
          simp [optPart] at h1
        · rw [hq] at h1
          rw [optPart_nil] at h1
          rw [optPart_ne '#' hf] at h1
          simp at h1
      · rw [optPart_ne '?' hq] at h1
        simp at h1
  by_cases hcond : n ≠ [] ∨ (s ≠ [] ∧ s ∈ uses_netloc ∧ ('/' :: pa').take 2 ≠ ['/', '/'])
  · rw [if_pos hcond]
    by_cases hsn : s = []
    · subst hsn
      rw [if_pos rfl, List.nil_append]
      rw [pyUrlsplit_stages ?h32a ?hcla]
      case h32a =>
        intro c hc
        simp only [List.cons_append, List.head?_cons, Option.some.injEq] at hc
        rw [← hc]
        decide
      case hcla =>
        exact cleanStr_cons (cleanChar_of_toNat (by decide))
          (cleanStr_cons (cleanChar_of_toNat (by decide)) (cleanStr_append hnc cbody))
      rw [scheme_stage_slash ?hha]
      case hha => rfl
      dsimp only
      rw [netloc_stage_emit2 _ hnd hbh]
    · rw [if_neg hsn]
      rcases hs with rfl | ⟨⟨c0, t0, rfl, halpha⟩, hall⟩
      · exact absurd rfl hsn
      rw [pyUrlsplit_stages ?h32b ?hclb]
      case h32b =>
        intro c hc
        simp only [List.cons_append, List.head?_cons, Option.some.injEq] at hc
        rw [← hc]
        exact alpha_gt32 halpha
      case hclb =>
        exact cleanStr_append
          (cleanStr_append (fun c hc => (schemeChar_facts (hall c hc).1).1)
            (cleanStr_cons (cleanChar_of_toNat (by decide)) cleanStr_nil))
          (cleanStr_cons (cleanChar_of_toNat (by decide))
            (cleanStr_cons (cleanChar_of_toNat (by decide)) (cleanStr_append hnc cbody)))
      rw [scheme_stage_valid2 _ ⟨c0, t0, rfl, halpha⟩ hall]
      dsimp only
      rw [netloc_stage_emit2 _ hnd hbh]
  · rw [if_neg hcond, List.nil_append]
    have hn0 : n = [] := by
      by_contra hne
      exact hcond (Or.inl hne)
    subst hn0
    by_cases hsn : s = []
    · subst hsn
      rw [if_pos rfl, List.nil_append]
      rw [pyUrlsplit_stages ?h32c ?hclc]
      case h32c =>
        intro c hc
        simp only [List.cons_append, List.head?_cons, Option.some.injEq] at hc
        rw [← hc]
        decide
      case hclc => exact cbody
      rw [scheme_stage_slash ?hhc]
      case hhc => rfl
      dsimp only
      rw [netloc_stage_skip hb2]
    · rw [if_neg hsn]
      rcases hs with rfl | ⟨⟨c0, t0, rfl, halpha⟩, hall⟩
      · exact absurd rfl hsn
      rw [pyUrlsplit_stages ?h32d ?hcld]
      case h32d =>
        intro c hc
        simp only [List.cons_append, List.head?_cons, Option.some.injEq] at hc
        rw [← hc]
        exact alpha_gt32 halpha
      case hcld =>
        exact cleanStr_append
          (cleanStr_append (fun c hc => (schemeChar_facts (hall c hc).1).1)
            (cleanStr_cons (cleanChar_of_toNat (by decide)) cleanStr_nil))
          cbody
      rw [scheme_stage_valid2 _ ⟨c0, t0, rfl, halpha⟩ hall]
      dsimp only
      rw [netloc_stage_skip hb2]

theorem optPart_hash_not_mem {q : List Char} (h3 : '#' ∉ q) : '#' ∉ optPart '?' q := by
  unfold optPart
  split
  · simp
  · intro h
    rcases List.mem_cons.mp h with h | h
    · exact absurd h (by decide)
    · exact h3 h

theorem bodySplit_fragment (pa q f : List Char) (h1 : '#' ∉ pa) (h3 : '#' ∉ q) :
    (bodySplit (pa ++ (optPart '?' q ++ optPart '#' f))).2.2 = f := by
  have hmem : '#' ∉ pa ++ optPart '?' q := by
    intro h
    rcases List.mem_append.mp h with h | h
    · exact h1 h
    · exact optPart_hash_not_mem h3 h
  by_cases hf : f = []
  · subst hf
    rw [optPart_nil, List.append_nil]
    unfold bodySplit
    rw [splitAtFirst_of_not_mem hmem]
  · rw [optPart_ne '#' hf, ← List.append_assoc]
    exact bodySplit_frag (pa ++ optPart '?' q) f hmem

/-! ## C7: idempotence of `canonicalize_spa` -/

/-- C7 counterexample: with a `#` in `start_path`, `canonicalize_spa` is not
idempotent.  For `u = "http://h/x#/f"`, `o = "http://h"`,
`p = "/a#/q"` the first application yields `"http://h/a#/q#/f"`, and the
second — whose re-split fragment `"/q#/f"` again starts with `/` — appends
the `#`-tail of `start_path` a second time, yielding
`"http://h/a#/q#/q#/f"`. -/
theorem c7_counterexample :
    canonicalize_spa (canonicalize_spa ("http://h/x#/f".data) ("http://h".data)
        ("/a#/q".data)) ("http://h".data) ("/a#/q".data) ≠
      canonicalize_spa ("http://h/x#/f".data) ("http://h".data) ("/a#/q".data) := by
  decide

set_option maxHeartbeats 1000000 in
/-- C7 (corrected): `canonicalize_spa` is idempotent for every URL `u` and
origin `o` whenever the configured `start_path` contains none of the
characters `#`, tab, CR, LF.  (The unrestricted claim is refuted by
`c7_counterexample`.) -/
theorem c7_theorem (u o p : List Char) (hpf : '#' ∉ p) (hpc : CleanStr p) :
    canonicalize_spa (canonicalize_spa u o p) o p = canonicalize_spa u o p := by
  obtain ⟨hS, ⟨hND, hNC⟩, ⟨hPf, hPq, hPc⟩, ⟨hQf, hQc⟩, hFc⟩ := pyUrlsplit_wf u
  have hnf : '#' ∉ normalize_slash_path (pyUrlsplit u).path := by
    intro h
    rcases normalize_mem _ h with h | h
    · exact absurd h (by decide)
    · exact hPf h
  have hnq : '?' ∉ normalize_slash_path (pyUrlsplit u).path := by
    intro h
    rcases normalize_mem _ h with h | h
    · exact absurd h (by decide)
    · exact hPq h
  have hnc : CleanStr (normalize_slash_path (pyUrlsplit u).path) := by
    intro c hc
    rcases normalize_mem _ hc with h | h
    · rw [h]
      exact cleanChar_of_toNat (by decide)
    · exact hPc c h
  have hpnf : '#' ∉ normalize_slash_path p := by
    intro h
    rcases normalize_mem _ h with h | h
    · exact absurd h (by decide)
    · exact hpf h
  have hpnc : CleanStr (normalize_slash_path p) := by
    intro c hc
    rcases normalize_mem _ hc with h | h
    · rw [h]
      exact cleanChar_of_toNat (by decide)
    · exact hpc c h
  have hsplitCD := pyUrlsplit_unsplit_stages (pyUrlsplit u).scheme (pyUrlsplit u).netloc
    (normalize_slash_path (pyUrlsplit u).path) (pyUrlsplit u).query (pyUrlsplit u).fragment
    hS hND hNC (normalize_head _) (normalize_take2 _) hnc hQc hFc
  rw [bodySplit_build _ _ _ hnf hnq hQf] at hsplitCD
  dsimp only at hsplitCD
  by_cases hcond :
      (pyUrlsplit u).scheme ++ (':' :: '/' :: '/' :: []) ++ (pyUrlsplit u).netloc = o
  · by_cases hsw : startsWithSlash (pyUrlsplit u).fragment = true
    · have hinner : canonicalize_spa u o p =
          pyUrlunsplit ⟨(pyUrlsplit u).scheme, (pyUrlsplit u).netloc,
            normalize_slash_path p, [], (pyUrlsplit u).fragment⟩ := by
        unfold canonicalize_spa
        dsimp only
        rw [if_pos hcond, if_pos hsw]
      have hsplitA := pyUrlsplit_unsplit_stages (pyUrlsplit u).scheme (pyUrlsplit u).netloc
        (normalize_slash_path p) [] (pyUrlsplit u).fragment
        hS hND hNC (normalize_head _) (normalize_take2 _) hpnc cleanStr_nil hFc
      have hfr := bodySplit_fragment (normalize_slash_path p) [] (pyUrlsplit u).fragment
        hpnf (by simp)
      rw [hinner]
      unfold canonicalize_spa
      dsimp only
      rw [hsplitA]
      dsimp only
      rw [hfr]
      rw [if_pos hcond, if_pos hsw]
    · have hsw' : startsWithSlash (pyUrlsplit u).fragment = false := by
        revert hsw
        cases startsWithSlash (pyUrlsplit u).fragment <;> simp
      have hinner : canonicalize_spa u o p =
          pyUrlunsplit ⟨(pyUrlsplit u).scheme, (pyUrlsplit u).netloc,
            normalize_slash_path (pyUrlsplit u).path, (pyUrlsplit u).query,
            (pyUrlsplit u).fragment⟩ := by
        unfold canonicalize_spa
        dsimp only
        rw [if_pos hcond, if_neg hsw, if_neg (by simp [hsw'])]
      rw [hinner]
      unfold canonicalize_spa
      dsimp only
      rw [hsplitCD]
      dsimp only
      rw [if_pos hcond, if_neg hsw, if_neg (by simp [hsw']), normalize_idem]
  · have hinner : canonicalize_spa u o p =
        pyUrlunsplit ⟨(pyUrlsplit u).scheme, (pyUrlsplit u).netloc,
          normalize_slash_path (pyUrlsplit u).path, (pyUrlsplit u).query,
          (pyUrlsplit u).fragment⟩ := by
      unfold canonicalize_spa
      dsimp only
      rw [if_neg hcond]
    rw [hinner]
    unfold canonicalize_spa
    dsimp only
    rw [hsplitCD]
    dsimp only
    rw [if_neg hcond, normalize_idem]

/-- Witness for the corrected C7 theorem at a concrete input: for
`u = "http://h//x//y?a=1#/s"`, `o = "http://h"` and the clean start path
`"/app"`, both sides evaluate to `"http://h/app#/s"`. -/
theorem c7_witness :
    ('#' ∉ "/app".data ∧ CleanStr ("/app".data)) ∧
      canonicalize_spa (canonicalize_spa ("http://h//x//y?a=1#/s".data)
          ("http://h".data) ("/app".data)) ("http://h".data) ("/app".data) =
        canonicalize_spa ("http://h//x//y?a=1#/s".data) ("http://h".data) ("/app".data) :=
  ⟨⟨by decide, by simp only [CleanStr, CleanChar]; decide⟩,
   c7_theorem ("http://h//x//y?a=1#/s".data) ("http://h".data) ("/app".data)
     (by decide) (by simp only [CleanStr, CleanChar]; decide)⟩

end WvScanner
